import Mathlib

/-!
Shallow embedding of the TokenBalanceFetcher batch job engine.

Source of truth:
- src/server/routes.ts : registerRoutes (the process route) and
  processAddressesBatch (the batch runner with retry/backoff and pacing).
- src/unnamed/part_000 : MemStorage (in-memory ResultStore).
- src/shared/schema.ts : the BatchJob and AddressResult records.

Modelling conventions:
- randomUUID and new Date() are modelled by a strictly increasing Nat tick
  counter threaded through the run; each store mutation consumes one tick.
  Fresh ids are taken from the tick counter, timestamps are tick values.
- The opaque JSON payload stored by the runner is modelled as a Nat.
- JS Map is modelled as an association list; Map.set on a present key
  replaces the entry in place, on an absent key appends (JS insertion order).
- Partial record updates (TypeScript spread merge) are modelled by update
  records whose fields are Option-wrapped: none means the field is absent
  from the partial object and the old value is kept.
- The upstream fetch is modelled by an oracle giving, per attempt number,
  either an HTTP response (status code, status text, body) or a transport
  error. The while retry loop of routes.ts lines 216-270 recurses on the
  number of retries still allowed (maxRetries - retryCount), which is the
  loop guard of the source recast as a structurally decreasing argument.
-/

/-- Opaque upstream JSON payload; the code persists it verbatim and never
reads its fields, so it is modelled as a bare Nat token. -/
abbrev Payload := Nat

/-- batch_jobs row, from shared/schema.ts. -/
structure BatchJob where
  id : Nat
  name : String
  targetTokenAddress : Option String
  rateLimit : Nat
  status : String
  totalAddresses : Nat
  processedAddresses : Nat
  successfulLookups : Nat
  failedLookups : Nat
  createdAt : Option Nat
  completedAt : Option Nat
deriving Repr, DecidableEq

/-- address_results row, from shared/schema.ts. -/
structure AddressResult where
  id : Nat
  batchJobId : Nat
  address : String
  status : String
  data : Option Payload
  errorMessage : Option String
  processedAt : Option Nat
deriving Repr, DecidableEq

/-- Partial BatchJob (TypeScript Partial): a field that is none is absent
from the update object and keeps its old value under spread merge. -/
structure JobUpdate where
  id : Option Nat := none
  name : Option String := none
  targetTokenAddress : Option (Option String) := none
  rateLimit : Option Nat := none
  status : Option String := none
  totalAddresses : Option Nat := none
  processedAddresses : Option Nat := none
  successfulLookups : Option Nat := none
  failedLookups : Option Nat := none
  createdAt : Option (Option Nat) := none
  completedAt : Option (Option Nat) := none
deriving Repr, DecidableEq

/-- Partial AddressResult. The processedAt member may appear in the partial
object but is always overwritten by the store (spread order in
MemStorage.updateAddressResult), so applyResultUpdate ignores it. -/
structure ResultUpdate where
  id : Option Nat := none
  batchJobId : Option Nat := none
  address : Option String := none
  status : Option String := none
  data : Option (Option Payload) := none
  errorMessage : Option (Option String) := none
  processedAt : Option (Option Nat) := none
deriving Repr, DecidableEq

/-- Spread merge of a partial job onto a job, as in
MemStorage.updateBatchJob: updatedJob = old record overwritten by every
field present in the update. -/
def applyJobUpdate (j : BatchJob) (u : JobUpdate) : BatchJob :=
  { id := u.id.getD j.id
    name := u.name.getD j.name
    targetTokenAddress := u.targetTokenAddress.getD j.targetTokenAddress
    rateLimit := u.rateLimit.getD j.rateLimit
    status := u.status.getD j.status
    totalAddresses := u.totalAddresses.getD j.totalAddresses
    processedAddresses := u.processedAddresses.getD j.processedAddresses
    successfulLookups := u.successfulLookups.getD j.successfulLookups
    failedLookups := u.failedLookups.getD j.failedLookups
    createdAt := u.createdAt.getD j.createdAt
    completedAt := u.completedAt.getD j.completedAt }

/-- Spread merge of a partial result onto a result, with processedAt
refreshed to the current time, as in MemStorage.updateAddressResult. -/
def applyResultUpdate (r : AddressResult) (u : ResultUpdate) (now : Nat) : AddressResult :=
  { id := u.id.getD r.id
    batchJobId := u.batchJobId.getD r.batchJobId
    address := u.address.getD r.address
    status := u.status.getD r.status
    data := u.data.getD r.data
    errorMessage := u.errorMessage.getD r.errorMessage
    processedAt := some now }

/-- Association list lookup, modelling JS Map.get. -/
def getAssoc {α : Type} (m : List (Nat × α)) (k : Nat) : Option α :=
  match m.find? (fun p => p.1 == k) with
  | some p => some p.2
  | none => none

/-- Association list write, modelling JS Map.set: replaces the entry in
place when the key is present, appends when it is absent. -/
def setAssoc {α : Type} (m : List (Nat × α)) (k : Nat) (v : α) : List (Nat × α) :=
  match m with
  | [] => [(k, v)]
  | p :: rest => if p.1 == k then (k, v) :: rest else p :: setAssoc rest k v

/-- The in-memory ResultStore, from src/unnamed/part_000 (MemStorage). -/
structure MemStorage where
  batchJobs : List (Nat × BatchJob)
  addressResults : List (Nat × AddressResult)
deriving Repr, DecidableEq

namespace MemStorage

def getBatchJob (s : MemStorage) (id : Nat) : Option BatchJob :=
  getAssoc s.batchJobs id

/-- updateBatchJob: missing id returns undefined and leaves the store as
is; present id stores and returns the spread merge. -/
def updateBatchJob (s : MemStorage) (id : Nat) (u : JobUpdate) :
    Option BatchJob × MemStorage :=
  match getAssoc s.batchJobs id with
  | none => (none, s)
  | some j =>
      let j2 := applyJobUpdate j u
      (some j2, { s with batchJobs := setAssoc s.batchJobs id j2 })

/-- InsertAddressResult (insertAddressResultSchema omits id and
processedAt). -/
structure InsertAddressResult where
  batchJobId : Nat
  address : String
  status : Option String
  data : Option Payload
  errorMessage : Option String
deriving Repr, DecidableEq

/-- createAddressResult: assigns a fresh id (randomUUID, modelled by the
tick counter), defaults status to pending, stamps processedAt with the
creation time, and inserts the row. -/
def createAddressResult (s : MemStorage) (ins : InsertAddressResult)
    (freshId now : Nat) : AddressResult × MemStorage :=
  let r : AddressResult :=
    { id := freshId
      batchJobId := ins.batchJobId
      address := ins.address
      status := ins.status.getD "pending"
      data := ins.data
      errorMessage := ins.errorMessage
      processedAt := some now }
  (r, { s with addressResults := setAssoc s.addressResults freshId r })

/-- Comparison used by getAddressResultsByBatchId: ascending by
processedAt, absent timestamps treated as 0. -/
def resultLe (a b : AddressResult) : Bool :=
  Nat.ble (a.processedAt.getD 0) (b.processedAt.getD 0)

/-- Insertion step of the sort in getAddressResultsByBatchId. -/
def insertByTime (r : AddressResult) : List AddressResult → List AddressResult
  | [] => [r]
  | x :: xs => if resultLe x r then x :: insertByTime r xs else r :: x :: xs

/-- The sort in getAddressResultsByBatchId (ascending by processedAt).
All reachable stores carry pairwise distinct timestamps, for which every
comparison sort agrees, so an insertion sort stands in for Array.sort. -/
def sortByTime : List AddressResult → List AddressResult
  | [] => []
  | x :: xs => insertByTime x (sortByTime xs)

/-- getAddressResultsByBatchId: values in insertion order, filtered to the
job, sorted ascending by processedAt. -/
def getAddressResultsByBatchId (s : MemStorage) (batchJobId : Nat) :
    List AddressResult :=
  sortByTime ((s.addressResults.map Prod.snd).filter
    (fun r => r.batchJobId == batchJobId))

/-- updateAddressResult: missing id returns undefined and leaves the store
as is; present id stores and returns the spread merge with processedAt
refreshed. -/
def updateAddressResult (s : MemStorage) (id : Nat) (u : ResultUpdate)
    (now : Nat) : Option AddressResult × MemStorage :=
  match getAssoc s.addressResults id with
  | none => (none, s)
  | some r =>
      let r2 := applyResultUpdate r u now
      (some r2, { s with addressResults := setAssoc s.addressResults id r2 })

end MemStorage

/-! ## BalanceLookupClient: the retry loop of routes.ts lines 211-275 -/

/-- One upstream attempt as seen by the runner: either an HTTP response
(status code, status text, JSON body) or a thrown transport error. -/
inductive AttemptResult where
  | httpResponse (code : Nat) (statusText : String) (body : Payload)
  | netError (msg : String)
deriving Repr, DecidableEq

/-- Normalized outcome of one whole lookup (spec section 4.2). -/
inductive LookupOutcome where
  | success (body : Payload)
  | failure (msg : String)
deriving Repr, DecidableEq

/-- const maxRetries = 3 (routes.ts line 212). -/
def maxRetries : Nat := 3

/-- JS Response.ok: status in the inclusive range 200-299. -/
def responseOk (code : Nat) : Bool := 200 ≤ code && code ≤ 299

/-- Result of one whole lookup: the outcome, the final retryCount, the
number of upstream requests issued, and the backoff waits performed, in
order, in milliseconds. -/
structure LookupRun where
  outcome : LookupOutcome
  retries : Nat
  requests : Nat
  waits : List Nat
deriving Repr, DecidableEq

/-- lastError after all attempts returned 429 (routes.ts line 242). -/
def rateLimitedExhaustedMsg : String :=
  "Rate limited: All " ++ toString (maxRetries + 1) ++
    " attempts returned 429 (Too Many Requests)"

/-- lastError for a non-ok, non-429 status (routes.ts line 248). -/
def httpErrorMsg (code : Nat) (statusText : String) : String :=
  "HTTP " ++ toString code ++ ": " ++ statusText

/-- lastError for a thrown transport error (routes.ts line 258). -/
def networkErrorMsg (m : String) : String := "Network error: " ++ m

/-- The while retry loop of routes.ts lines 216-270. One call is one loop
iteration: attempt number retryCount issues one request. The remaining
argument is maxRetries - retryCount, the number of retries still allowed;
the loop guard retryCount < maxRetries of the source is remaining > 0.
On 429 the wait is max(5000, requestDelay) * (retryCount + 1); on a
transport error it is max(2000, requestDelay) * (retryCount + 1); any
other non-2xx status exits the loop at once. -/
def lookupGo (attempt : Nat → AttemptResult) (requestDelay : Nat) :
    Nat → Nat → LookupRun
  | retryCount, remaining =>
    match attempt retryCount with
    | .httpResponse code text body =>
        if code = 429 then
          match remaining with
          | rem + 1 =>
              let w := Nat.max 5000 requestDelay * (retryCount + 1)
              let rest := lookupGo attempt requestDelay (retryCount + 1) rem
              { outcome := rest.outcome, retries := rest.retries,
                requests := rest.requests + 1, waits := w :: rest.waits }
          | 0 =>
              { outcome := .failure rateLimitedExhaustedMsg,
                retries := retryCount, requests := 1, waits := [] }
        else if responseOk code then
          { outcome := .success body, retries := retryCount,
            requests := 1, waits := [] }
        else
          { outcome := .failure (httpErrorMsg code text), retries := retryCount,
            requests := 1, waits := [] }
    | .netError m =>
        match remaining with
        | rem + 1 =>
            let w := Nat.max 2000 requestDelay * (retryCount + 1)
            let rest := lookupGo attempt requestDelay (retryCount + 1) rem
            { outcome := rest.outcome, retries := rest.retries,
              requests := rest.requests + 1, waits := w :: rest.waits }
        | 0 =>
            { outcome := .failure (networkErrorMsg m), retries := retryCount,
              requests := 1, waits := [] }

/-- One whole lookup for one address: the retry loop entered with
retryCount = 0, so with maxRetries retries still allowed. -/
def balanceLookup (attempt : Nat → AttemptResult) (requestDelay : Nat) :
    LookupRun :=
  lookupGo attempt requestDelay 0 maxRetries

/-! ## BatchRunner: processAddressesBatch, routes.ts lines 179-328

The runner threads an explicit state: the store, the tick counter, the
three local counters of the source, a log of the store writes it performs
(the trace), and the per-iteration tally. Store writes may be made to
throw through an injectable fault assignment, modelling an abstract
ResultStore whose writes can fail; the shipped MemStorage never throws,
which is the all-false fault assignment. -/

/-- Math.ceil(1000 / rateLimit) (routes.ts line 189), for a positive
integer rate. -/
def requestDelayOf (rateLimit : Nat) : Nat := (1000 + rateLimit - 1) / rateLimit

/-- One logged store write of the runner. resultWrite records the loop
index of the iteration performing the write, and the partial update
written; jobWrite records the partial job update; pace records the
inter-request wait of routes.ts lines 309-312, in milliseconds. -/
inductive Ev where
  | resultWrite (loopIdx : Nat) (u : ResultUpdate)
  | jobWrite (u : JobUpdate)
  | pace (ms : Nat)
deriving Repr, DecidableEq

/-- How one loop iteration ended: counted as a success (successCount was
incremented), counted as a failure (failedCount was incremented), or
skipped (no AddressResult row found: only processedCount moves). -/
inductive AddrOutcome where
  | success
  | failure
  | skipped
deriving Repr, DecidableEq

/-- Injectable store-write faults for one iteration: whether the write of
the processing status, of the success result, or of the failed result
throws. The shipped MemStorage never throws: noFaults. -/
structure AddrFaults where
  onProcessingWrite : Bool := false
  onSuccessWrite : Bool := false
  onFailureWrite : Bool := false
deriving Repr, DecidableEq

def noFaults : AddrFaults := {}

/-- The fault assignment of the shipped program: no store write throws. -/
def noFaultsAt : Nat → AddrFaults := fun _ => noFaults

/-- Message carried by a thrown store-write fault. -/
def storeFaultMsg : String := "store write failure"

/-- Runner state: the store, the tick counter, the three counters of
routes.ts lines 191-193, the trace of store writes, and the per-iteration
tally. -/
structure RunState where
  store : MemStorage
  clock : Nat
  processedCount : Nat
  successCount : Nat
  failedCount : Nat
  trace : List Ev
  outcomes : List AddrOutcome
deriving Repr, DecidableEq

/-- The update written at routes.ts line 204. -/
def processingUpd : ResultUpdate := { status := some "processing" }

/-- The success update of routes.ts lines 281-285: stores the payload and
clears the error message. -/
def successUpd (body : Payload) : ResultUpdate :=
  { status := some "success", data := some (some body), errorMessage := some none }

/-- The failure update of routes.ts lines 290-293: stores the message.
The data field is absent from this partial object, so the spread merge
leaves any stored payload in place. -/
def failedUpd (msg : String) : ResultUpdate :=
  { status := some "failed", errorMessage := some (some msg) }

/-- The per-address counter persist of routes.ts lines 302-306. -/
def countersUpd (p s f : Nat) : JobUpdate :=
  { processedAddresses := some p, successfulLookups := some s,
    failedLookups := some f }

/-- The completion persist of routes.ts lines 321-327. -/
def completedUpd (p s f now : Nat) : JobUpdate :=
  { status := some "completed", completedAt := some (some now),
    processedAddresses := some p, successfulLookups := some s,
    failedLookups := some f }

/-- Perform one updateAddressResult call from the runner: mutates the
store, consumes a tick, logs the write. -/
def writeResult (st : RunState) (i rid : Nat) (u : ResultUpdate) : RunState :=
  { st with
    store := (MemStorage.updateAddressResult st.store rid u st.clock).2
    clock := st.clock + 1
    trace := st.trace ++ [.resultWrite i u] }

/-- Perform one updateBatchJob call from the runner: mutates the store,
consumes a tick, logs the write. -/
def writeJob (st : RunState) (jobId : Nat) (u : JobUpdate) : RunState :=
  { st with
    store := (MemStorage.updateBatchJob st.store jobId u).2
    clock := st.clock + 1
    trace := st.trace ++ [.jobWrite u] }

/-- The body of the inner try of routes.ts lines 202-296, for one found
result row: write the processing status, run the lookup, and write the
terminal result, with the inner catch of lines 288-296 applied. An error
value is an exception escaping to the outer catch, carrying the state at
the throw (writes performed before the throw persist). The Bool is true
when the iteration incremented successCount, false for failedCount. -/
def processEntry (attempt : Nat → AttemptResult) (f : AddrFaults)
    (requestDelay i rid : Nat) (st : RunState) :
    Except (String × RunState) (RunState × Bool) :=
  if f.onProcessingWrite then .error (storeFaultMsg, st)
  else
    let st1 := writeResult st i rid processingUpd
    match (balanceLookup attempt requestDelay).outcome with
    | .success body =>
        if f.onSuccessWrite then
          -- the success write throws; the inner catch writes the failed
          -- result carrying the thrown message
          if f.onFailureWrite then .error (storeFaultMsg, st1)
          else .ok (writeResult st1 i rid (failedUpd storeFaultMsg), false)
        else .ok (writeResult st1 i rid (successUpd body), true)
    | .failure msg =>
        -- the throw at routes.ts line 274 lands in the inner catch
        if f.onFailureWrite then .error (storeFaultMsg, st1)
        else .ok (writeResult st1 i rid (failedUpd msg), false)

/-- One iteration of the for loop of routes.ts lines 195-318: find the
row for the address, process it, bump the counters, persist the job
counters, and pace; the outer catch of lines 313-317 turns any escaped
exception into failedCount and processedCount increments and moves on
(no counter persist, no pace on that path). -/
def processOne (jobId nAddrs requestDelay : Nat)
    (oracle : Nat → Nat → AttemptResult) (faults : Nat → AddrFaults)
    (i : Nat) (addr : String) (st : RunState) : RunState :=
  let results := MemStorage.getAddressResultsByBatchId st.store jobId
  let attempted : Except (String × RunState) (RunState × Option Bool) :=
    match results.find? (fun r => r.address == addr) with
    | none => .ok (st, none)
    | some entry =>
        match processEntry (oracle i) (faults i) requestDelay i entry.id st with
        | .ok (st2, ok) => .ok (st2, some ok)
        | .error e => .error e
  match attempted with
  | .ok (st2, okFlag) =>
      let st3 : RunState :=
        { st2 with
          successCount := st2.successCount + (if okFlag = some true then 1 else 0)
          failedCount := st2.failedCount + (if okFlag = some false then 1 else 0)
          processedCount := st2.processedCount + 1
          outcomes := st2.outcomes ++
            [match okFlag with
             | some true => .success
             | some false => .failure
             | none => .skipped] }
      let st4 := writeJob st3 jobId
        (countersUpd st3.processedCount st3.successCount st3.failedCount)
      if st4.processedCount < nAddrs then
        { st4 with trace := st4.trace ++ [.pace requestDelay] }
      else st4
  | .error (_, stE) =>
      { stE with
        failedCount := stE.failedCount + 1
        processedCount := stE.processedCount + 1
        outcomes := stE.outcomes ++ [.failure] }

/-- The for loop of routes.ts lines 195-318, iterating in input order. -/
def runLoop (jobId nAddrs requestDelay : Nat)
    (oracle : Nat → Nat → AttemptResult) (faults : Nat → AddrFaults) :
    Nat → List String → RunState → RunState
  | _, [], st => st
  | i, a :: rest, st =>
      runLoop jobId nAddrs requestDelay oracle faults (i + 1) rest
        (processOne jobId nAddrs requestDelay oracle faults i a st)

/-- processAddressesBatch (routes.ts lines 179-328): the loop followed by
the completion persist of lines 321-327. -/
def processAddressesBatch (jobId : Nat) (addresses : List String)
    (rateLimit : Nat) (oracle : Nat → Nat → AttemptResult)
    (faults : Nat → AddrFaults) (st : RunState) : RunState :=
  let requestDelay := requestDelayOf rateLimit
  let stEnd := runLoop jobId addresses.length requestDelay oracle faults 0 addresses st
  writeJob stEnd jobId
    (completedUpd stEnd.processedCount stEnd.successCount stEnd.failedCount
      stEnd.clock)

/-- The bulk row creation of the process route (routes.ts lines 76-84):
one pending row per input address occurrence, in input order, fresh ids
and timestamps from consecutive ticks. -/
def createPendingRows (jobId : Nat) :
    List String → MemStorage → Nat → MemStorage × Nat
  | [], s, clock => (s, clock)
  | a :: rest, s, clock =>
      let s2 := (MemStorage.createAddressResult s
        { batchJobId := jobId, address := a, status := some "pending",
          data := none, errorMessage := none } clock clock).2
      createPendingRows jobId rest s2 (clock + 1)

/-- The initialization of the process route (routes.ts lines 69-84): mark
the job processing, record totalAddresses, create the pending rows. -/
def startProcessing (jobId : Nat) (addresses : List String)
    (s : MemStorage) (clock : Nat) : MemStorage × Nat :=
  let s1 := (MemStorage.updateBatchJob s jobId
    { status := some "processing", totalAddresses := some addresses.length }).2
  createPendingRows jobId addresses s1 (clock + 1)

/-- The whole process route (routes.ts lines 57-94): look the job up (404
when absent), initialize, then run processAddressesBatch with the rate
job.rateLimit falling back to 5 when zero (the JS or-default of line 87). -/
def processRoute (jobId : Nat) (addresses : List String)
    (oracle : Nat → Nat → AttemptResult) (faults : Nat → AddrFaults)
    (s : MemStorage) (clock : Nat) : Option RunState :=
  match MemStorage.getBatchJob s jobId with
  | none => none
  | some job =>
      let (s1, c1) := startProcessing jobId addresses s clock
      let rl := if job.rateLimit == 0 then 5 else job.rateLimit
      some (processAddressesBatch jobId addresses rl oracle faults
        { store := s1, clock := c1, processedCount := 0, successCount := 0,
          failedCount := 0, trace := [], outcomes := [] })

/-! ## Derived notions used by the verification -/

/-- Whether one whole lookup under the given attempt oracle ends in
Success. -/
def lookupOk (attempt : Nat → AttemptResult) (d : Nat) : Bool :=
  match (balanceLookup attempt d).outcome with
  | .success _ => true
  | .failure _ => false

/-- The terminal result update written for a lookup with the given
outcome: the success update or the failure update. -/
def terminalUpd (attempt : Nat → AttemptResult) (d : Nat) : ResultUpdate :=
  match (balanceLookup attempt d).outcome with
  | .success b => successUpd b
  | .failure m => failedUpd m

/-- Whether loop iteration i is counted as a success by the runner: no
fault on the processing write, a successful lookup, and no fault on the
success write. In every other case the iteration is counted as a failure
(by the inner catch or by the outer catch). -/
def addrSucceeds (oracle : Nat → Nat → AttemptResult)
    (faults : Nat → AddrFaults) (d i : Nat) : Bool :=
  !(faults i).onProcessingWrite && lookupOk (oracle i) d &&
    !(faults i).onSuccessWrite

/-- The per-iteration tallies the loop is expected to append, starting at
loop index i. -/
def expectedOutcomes (oracle : Nat → Nat → AttemptResult)
    (faults : Nat → AddrFaults) (d : Nat) : Nat → List String → List AddrOutcome
  | _, [] => []
  | i, _ :: rest =>
      (if addrSucceeds oracle faults d i then AddrOutcome.success
       else AddrOutcome.failure) :: expectedOutcomes oracle faults d (i + 1) rest

/-- The store-write trace a fault-free loop is expected to append,
entered at loop index i with success and failure counters s and f: per
address, the processing write, the terminal write, the counter persist
carrying the updated counters, and the pacing wait for every address but
the last. -/
def expectedEvents (oracle : Nat → Nat → AttemptResult) (d n : Nat) :
    Nat → Nat → Nat → List String → List Ev
  | _, _, _, [] => []
  | i, s, f, _ :: rest =>
      let ok := lookupOk (oracle i) d
      let s2 := s + (if ok then 1 else 0)
      let f2 := f + (if ok then 0 else 1)
      ([.resultWrite i processingUpd,
        .resultWrite i (terminalUpd (oracle i) d),
        .jobWrite (countersUpd (i + 1) s2 f2)] ++
        (if i + 1 < n then [Ev.pace d] else [])) ++
      expectedEvents oracle d n (i + 1) s2 f2 rest

def isPace : Ev → Bool
  | .pace _ => true
  | _ => false

def isJobWrite : Ev → Bool
  | .jobWrite _ => true
  | _ => false

/-- Total milliseconds of pacing waits in a trace. -/
def paceTotal (tr : List Ev) : Nat :=
  (tr.map (fun e => match e with | .pace ms => ms | _ => 0)).sum

/-- The stored rows of one (job, address) pair. -/
def rowsFor (s : MemStorage) (jobId : Nat) (a : String) : List AddressResult :=
  (s.addressResults.map Prod.snd).filter
    (fun r => r.batchJobId == jobId && r.address == a)

/-- Field coupling stated by the spec (section 3): the payload is present
iff the row is a success, the error message is present iff the row is a
failure. Stated from the spec wording, to be compared with what the code
maintains. -/
def resultFieldsOk (r : AddressResult) : Prop :=
  (r.status = "success" ↔ r.data.isSome) ∧
  (r.status = "failed" ↔ r.errorMessage.isSome)

/-- There is a stored row of the job for the given address. -/
def RowsExist (s : MemStorage) (jobId : Nat) (a : String) : Prop :=
  ∃ r, r ∈ s.addressResults.map Prod.snd ∧ r.batchJobId = jobId ∧ r.address = a

/-- The pending row created at tick c for one address of the job. -/
def pendingRow (jobId : Nat) (a : String) (c : Nat) : AddressResult :=
  { id := c, batchJobId := jobId, address := a, status := "pending",
    data := none, errorMessage := none, processedAt := some c }

/-- Placeholder row used with List.getD. -/
def dummyRow : AddressResult :=
  { id := 0, batchJobId := 0, address := "", status := "pending",
    data := none, errorMessage := none, processedAt := none }

/-- A row not yet reached by the runner: pending, no payload, no error. -/
def pendingSpec (r : AddressResult) : Prop :=
  r.status = "pending" ∧ r.data = none ∧ r.errorMessage = none

/-- A row the runner has finished: on a successful lookup it is success
with the payload and no error, otherwise failed with the message and no
payload. -/
def terminalSpec (attempt : Nat → AttemptResult) (d : Nat)
    (r : AddressResult) : Prop :=
  match (balanceLookup attempt d).outcome with
  | .success b => r.status = "success" ∧ r.data = some b ∧ r.errorMessage = none
  | .failure m => r.status = "failed" ∧ r.data = none ∧ r.errorMessage = some m

/-- Shape of the store of a fault-free run over a duplicate-free address
list after the first k addresses are done: one row per address, in
creation order, with pairwise distinct ids, rows before k terminal and
rows from k on pending. -/
def StoreShape (jobId : Nat) (addresses : List String)
    (oracle : Nat → Nat → AttemptResult) (d k : Nat) (s : MemStorage) : Prop :=
  ∃ rows : List AddressResult,
    s.addressResults = rows.map (fun r => (r.id, r)) ∧
    rows.length = addresses.length ∧
    (rows.map (fun r => r.id)).Nodup ∧
    ∀ j, j < addresses.length →
      (rows.getD j dummyRow).batchJobId = jobId ∧
      (rows.getD j dummyRow).address = addresses.getD j "" ∧
      (if j < k then terminalSpec (oracle j) d (rows.getD j dummyRow)
       else pendingSpec (rows.getD j dummyRow))

/-- The entries createPendingRows appends to a store whose keys are all
below the starting tick. -/
def buildPending (jobId : Nat) : Nat → List String → List (Nat × AddressResult)
  | _, [] => []
  | c, a :: rest => (c, pendingRow jobId a c) :: buildPending jobId (c + 1) rest

/-- Whether an event is the terminal result write of loop iteration j. -/
def isTerminalWrite (j : Nat) : Ev → Bool
  | .resultWrite j2 u =>
      j2 == j && (u.status == some "success" || u.status == some "failed")
  | _ => false

/-- Field states a row can be in during any run: untouched or marked
processing (no payload, no error), success (payload, no error), or
failed (error, no payload). Each disjunct satisfies the
payload-iff-success and error-iff-failed coupling. -/
def goodRow (r : AddressResult) : Prop :=
  (r.data = none ∧ r.errorMessage = none ∧
    r.status ≠ "success" ∧ r.status ≠ "failed") ∨
  (r.status = "success" ∧ r.data.isSome = true ∧ r.errorMessage = none) ∨
  (r.status = "failed" ∧ r.data = none ∧ r.errorMessage.isSome = true)

/-- A row whose timestamp predates the initialization threshold T: it
was created at job start and has not been written since (every runner
write stamps a tick at or after T). -/
def untouchedB (T : Nat) (r : AddressResult) : Bool :=
  decide (r.processedAt.getD 0 < T)

/-- Invariant of the store during any run, with any upstream behaviour
and any fault assignment, duplicates allowed. T is the tick at the end
of initialization: rows created at job start are stamped before T, and
every write of the runner is stamped at or after T, so in the
timestamp-sorted listing every untouched row precedes every touched row
and the find of routes.ts line 200 always selects an untouched (hence
clean) row. remaining counts how many loop iterations are still to come
per address; each needs one untouched row of that address. -/
def StoreOk (jobId T : Nat) (remaining : List String) (s : MemStorage)
    (clock : Nat) : Prop :=
  (∀ p ∈ s.addressResults, p.1 = p.2.id) ∧
  (s.addressResults.map Prod.fst).Nodup ∧
  T ≤ clock ∧
  (∀ r ∈ s.addressResults.map Prod.snd,
    r.batchJobId = jobId ∧ goodRow r ∧
    (untouchedB T r = true → r.data = none ∧ r.errorMessage = none)) ∧
  (∀ a : String, remaining.count a ≤
    ((s.addressResults.map Prod.snd).filter
      (fun r => untouchedB T r && r.address == a)).length)

/-- The store as it stands inside one loop iteration, right after the
processing-status write of routes.ts line 204 and before the terminal
write: the found row marked processing, everything else untouched. -/
def midIterationStore (jobId : Nat) (addr : String)
    (st : RunState) : MemStorage :=
  match (MemStorage.getAddressResultsByBatchId st.store jobId).find?
    (fun r => r.address == addr) with
  | none => st.store
  | some entry =>
      (MemStorage.updateAddressResult st.store entry.id processingUpd
        st.clock).2

/-! ## Theorems -/

theorem getAssoc_cons {α : Type} (p : Nat × α) (m : List (Nat × α)) (k : Nat) :
    getAssoc (p :: m) k = if p.1 = k then some p.2 else getAssoc m k := by
  by_cases h : p.1 = k
  · simp [getAssoc, List.find?_cons_of_pos, h]
  · simp [getAssoc, List.find?_cons_of_neg, h]

theorem getAssoc_setAssoc_self {α : Type} (m : List (Nat × α)) (k : Nat) (v : α) :
    getAssoc (setAssoc m k v) k = some v := by
  induction m with
  | nil => simp [setAssoc, getAssoc_cons]
  | cons p rest ih =>
      by_cases h : p.1 = k
      · simp [setAssoc, h, getAssoc_cons]
      · simp [setAssoc, h, getAssoc_cons, ih]

theorem getAssoc_setAssoc_ne {α : Type} (m : List (Nat × α)) (k k2 : Nat)
    (v : α) (h : k2 ≠ k) :
    getAssoc (setAssoc m k v) k2 = getAssoc m k2 := by
  induction m with
  | nil => simp [setAssoc, getAssoc_cons, getAssoc, Ne.symm h]
  | cons p rest ih =>
      by_cases hp : p.1 = k
      · have hk2 : p.1 ≠ k2 := by rw [hp]; exact Ne.symm h
        simp [setAssoc, hp, getAssoc_cons, Ne.symm h, hk2]
      · by_cases hp2 : p.1 = k2
        · simp [setAssoc, hp, getAssoc_cons, hp2, h]
        · simp [setAssoc, hp, getAssoc_cons, hp2, h, ih]

/-- Retry budget of the loop: entered with rem retries allowed, the final
retryCount is at most rc + rem and at most rem + 1 requests are issued. -/
theorem lookupGo_bounds (attempt : Nat → AttemptResult) (d : Nat) :
    ∀ rem rc, (lookupGo attempt d rc rem).retries ≤ rc + rem ∧
      (lookupGo attempt d rc rem).requests ≤ rem + 1 := by
  intro rem
  induction rem with
  | zero =>
      intro rc
      cases h : attempt rc with
      | httpResponse code text body =>
          by_cases h429 : code = 429
          · simp [lookupGo, h, h429]
          · by_cases hok : responseOk code <;> simp [lookupGo, h, h429, hok]
      | netError m => simp [lookupGo, h]
  | succ rem ih =>
      intro rc
      cases h : attempt rc with
      | httpResponse code text body =>
          by_cases h429 : code = 429
          · have := ih (rc + 1)
            simp only [lookupGo, h, h429, if_true]
            constructor
            · exact le_trans this.1 (by omega)
            · exact le_trans (Nat.add_le_add_right this.2 1) (by omega)
          · by_cases hok : responseOk code <;> simp [lookupGo, h, h429, hok]
      | netError m =>
          have := ih (rc + 1)
          simp only [lookupGo, h]
          constructor
          · exact le_trans this.1 (by omega)
          · exact le_trans (Nat.add_le_add_right this.2 1) (by omega)

/-- C2: on HTTP 429 the lookup waits max(5000, requestDelay) multiplied by
the attempt number and retries, up to maxRetries = 3 retries (4 attempts);
an upstream answering 429 on attempts 1-3 and 200 on attempt 4 yields
exactly one Success after exactly 3 retries, 4 requests, with the three
backoff waits; and every lookup whatsoever stays within 3 retries and 4
requests. -/
theorem c2_rate_limited_backoff_and_retry (attempt : Nat → AttemptResult)
    (d : Nat) (t0 t1 t2 t3 : String) (b0 b1 b2 body : Payload)
    (h0 : attempt 0 = .httpResponse 429 t0 b0)
    (h1 : attempt 1 = .httpResponse 429 t1 b1)
    (h2 : attempt 2 = .httpResponse 429 t2 b2)
    (h3 : attempt 3 = .httpResponse 200 t3 body) :
    balanceLookup attempt d =
      { outcome := .success body, retries := 3, requests := 4,
        waits := [Nat.max 5000 d * 1, Nat.max 5000 d * 2, Nat.max 5000 d * 3] } ∧
    ∀ (a2 : Nat → AttemptResult) (d2 : Nat),
      (balanceLookup a2 d2).retries ≤ maxRetries ∧
      (balanceLookup a2 d2).requests ≤ maxRetries + 1 := by
  constructor
  · show lookupGo attempt d 0 maxRetries = _
    simp [maxRetries, lookupGo, h0, h1, h2, h3, responseOk]
  · intro a2 d2
    have h := lookupGo_bounds a2 d2 maxRetries 0
    exact ⟨by simpa [balanceLookup] using h.1, by simpa [balanceLookup] using h.2⟩

def c2Oracle : Nat → AttemptResult := fun n =>
  if n < 3 then .httpResponse 429 "Too Many Requests" 0
  else .httpResponse 200 "OK" 77

theorem c2_rate_limited_backoff_and_retry_witness :
    balanceLookup c2Oracle 200 =
      { outcome := .success 77, retries := 3, requests := 4,
        waits := [5000, 10000, 15000] } :=
  (c2_rate_limited_backoff_and_retry c2Oracle 200
    "Too Many Requests" "Too Many Requests" "Too Many Requests" "OK"
    0 0 0 77 (by decide) (by decide) (by decide) (by decide)).1

/-- C3: a non-2xx status other than 429 on the first attempt fails the
lookup at once: Failure with the HTTP error text, zero retries, exactly
one request, no backoff wait. -/
theorem c3_non_retriable_http_error (attempt : Nat → AttemptResult)
    (d code : Nat) (t : String) (b : Payload)
    (h0 : attempt 0 = .httpResponse code t b)
    (hnot429 : code ≠ 429) (hnotok : responseOk code = false) :
    balanceLookup attempt d =
      { outcome := .failure (httpErrorMsg code t), retries := 0,
        requests := 1, waits := [] } := by
  show lookupGo attempt d 0 maxRetries = _
  simp [maxRetries, lookupGo, h0, hnot429, hnotok]

def c3Oracle : Nat → AttemptResult := fun _ => .httpResponse 404 "Not Found" 0

theorem c3_non_retriable_http_error_witness :
    balanceLookup c3Oracle 200 =
      { outcome := .failure "HTTP 404: Not Found", retries := 0,
        requests := 1, waits := [] } :=
  c3_non_retriable_http_error c3Oracle 200 404 "Not Found" 0 (by decide)
    (by decide) (by decide)

/-- C10: updateBatchJob and updateAddressResult on a missing id return
none (undefined) and leave the store completely unchanged; on a present
id they return and store the spread merge, which changes only the fields
present in the partial update (updateAddressResult additionally
refreshing processedAt) and leaves every other store entry and the other
table untouched. -/
theorem c10_partial_update_semantics (s : MemStorage) (id now : Nat)
    (ju : JobUpdate) (ru : ResultUpdate) :
    (MemStorage.getBatchJob s id = none →
      MemStorage.updateBatchJob s id ju = (none, s)) ∧
    (getAssoc s.addressResults id = none →
      MemStorage.updateAddressResult s id ru now = (none, s)) ∧
    (∀ j, MemStorage.getBatchJob s id = some j →
      (MemStorage.updateBatchJob s id ju).1 = some (applyJobUpdate j ju) ∧
      (∀ k, getAssoc (MemStorage.updateBatchJob s id ju).2.batchJobs k =
        if k = id then some (applyJobUpdate j ju) else getAssoc s.batchJobs k) ∧
      (MemStorage.updateBatchJob s id ju).2.addressResults = s.addressResults) ∧
    (∀ r, getAssoc s.addressResults id = some r →
      (MemStorage.updateAddressResult s id ru now).1 =
        some (applyResultUpdate r ru now) ∧
      (∀ k, getAssoc (MemStorage.updateAddressResult s id ru now).2.addressResults k =
        if k = id then some (applyResultUpdate r ru now)
        else getAssoc s.addressResults k) ∧
      (MemStorage.updateAddressResult s id ru now).2.batchJobs = s.batchJobs) ∧
    (∀ j : BatchJob,
      (ju.id = none → (applyJobUpdate j ju).id = j.id) ∧
      (ju.name = none → (applyJobUpdate j ju).name = j.name) ∧
      (ju.targetTokenAddress = none →
        (applyJobUpdate j ju).targetTokenAddress = j.targetTokenAddress) ∧
      (ju.rateLimit = none → (applyJobUpdate j ju).rateLimit = j.rateLimit) ∧
      (ju.status = none → (applyJobUpdate j ju).status = j.status) ∧
      (ju.totalAddresses = none →
        (applyJobUpdate j ju).totalAddresses = j.totalAddresses) ∧
      (ju.processedAddresses = none →
        (applyJobUpdate j ju).processedAddresses = j.processedAddresses) ∧
      (ju.successfulLookups = none →
        (applyJobUpdate j ju).successfulLookups = j.successfulLookups) ∧
      (ju.failedLookups = none →
        (applyJobUpdate j ju).failedLookups = j.failedLookups) ∧
      (ju.createdAt = none → (applyJobUpdate j ju).createdAt = j.createdAt) ∧
      (ju.completedAt = none → (applyJobUpdate j ju).completedAt = j.completedAt)) ∧
    (∀ r : AddressResult,
      (ru.id = none → (applyResultUpdate r ru now).id = r.id) ∧
      (ru.batchJobId = none →
        (applyResultUpdate r ru now).batchJobId = r.batchJobId) ∧
      (ru.address = none → (applyResultUpdate r ru now).address = r.address) ∧
      (ru.status = none → (applyResultUpdate r ru now).status = r.status) ∧
      (ru.data = none → (applyResultUpdate r ru now).data = r.data) ∧
      (ru.errorMessage = none →
        (applyResultUpdate r ru now).errorMessage = r.errorMessage) ∧
      (applyResultUpdate r ru now).processedAt = some now) := by
  refine ⟨?_, ?_, ?_, ?_, ?_, ?_⟩
  · intro h; simp [MemStorage.updateBatchJob, MemStorage.getBatchJob] at h ⊢
    simp [h]
  · intro h; simp [MemStorage.updateAddressResult, h]
  · intro j hj
    simp only [MemStorage.getBatchJob] at hj
    refine ⟨?_, ?_, ?_⟩ <;>
      simp only [MemStorage.updateBatchJob, hj]
    · intro k
      by_cases hk : k = id
      · subst hk; simp [getAssoc_setAssoc_self]
      · simp [hk, getAssoc_setAssoc_ne _ _ _ _ hk]
  · intro r hr
    refine ⟨?_, ?_, ?_⟩ <;>
      simp only [MemStorage.updateAddressResult, hr]
    · intro k
      by_cases hk : k = id
      · subst hk; simp [getAssoc_setAssoc_self]
      · simp [hk, getAssoc_setAssoc_ne _ _ _ _ hk]
  · intro j
    refine ⟨?_, ?_, ?_, ?_, ?_, ?_, ?_, ?_, ?_, ?_, ?_⟩ <;>
      intro h <;> simp [applyJobUpdate, h]
  · intro r
    refine ⟨?_, ?_, ?_, ?_, ?_, ?_, ?_⟩ <;>
      try (intro h; simp [applyResultUpdate, h])
    simp [applyResultUpdate]

def c10Job : BatchJob :=
  { id := 1, name := "job", targetTokenAddress := none, rateLimit := 5,
    status := "pending", totalAddresses := 2, processedAddresses := 0,
    successfulLookups := 0, failedLookups := 0, createdAt := some 0,
    completedAt := none }

def c10Res : AddressResult :=
  { id := 5, batchJobId := 1, address := "a", status := "pending",
    data := none, errorMessage := none, processedAt := some 2 }

def c10Store : MemStorage :=
  { batchJobs := [(1, c10Job)], addressResults := [(5, c10Res)] }

def c10Ju : JobUpdate := { status := some "processing", totalAddresses := some 2 }

def c10Ru : ResultUpdate := { status := some "processing" }

theorem c10_partial_update_semantics_witness :
    MemStorage.updateBatchJob c10Store 2 c10Ju = (none, c10Store) ∧
    MemStorage.updateAddressResult c10Store 7 c10Ru 9 = (none, c10Store) ∧
    (MemStorage.updateBatchJob c10Store 1 c10Ju).1 =
      some (applyJobUpdate c10Job c10Ju) ∧
    (applyJobUpdate c10Job c10Ju).name = c10Job.name ∧
    (applyResultUpdate c10Res c10Ru 9).processedAt = some 9 :=
  ⟨(c10_partial_update_semantics c10Store 2 9 c10Ju c10Ru).1 (by decide),
   (c10_partial_update_semantics c10Store 7 9 c10Ju c10Ru).2.1 (by decide),
   ((c10_partial_update_semantics c10Store 1 9 c10Ju c10Ru).2.2.1 c10Job
     (by decide)).1,
   (((c10_partial_update_semantics c10Store 1 9 c10Ju c10Ru).2.2.2.2.1
     c10Job).2.1 (by decide)),
   ((c10_partial_update_semantics c10Store 5 9 c10Ju c10Ru).2.2.2.2.2
     c10Res).2.2.2.2.2.2⟩

def c6Row : AddressResult :=
  { id := 5, batchJobId := 1, address := "a", status := "success",
    data := some 7, errorMessage := none, processedAt := some 3 }

def c6Store : MemStorage := { batchJobs := [], addressResults := [(5, c6Row)] }

def c6FailedRow : AddressResult :=
  { id := 5, batchJobId := 1, address := "a", status := "failed",
    data := some 7, errorMessage := some "HTTP 500: Internal Server Error",
    processedAt := some 9 }

/-- C6 counterexample: the failure update written by the runner
(routes.ts lines 290-293) does not clear the stored payload. Applied
through the store to a row holding a payload, the persisted row is failed
yet still carries the payload, contradicting both clears-the-payload and
payload-present-iff-success. -/
theorem c6_counterexample :
    (MemStorage.updateAddressResult c6Store 5
      (failedUpd "HTTP 500: Internal Server Error") 9).1 = some c6FailedRow ∧
    c6FailedRow.status = "failed" ∧ c6FailedRow.data = some 7 ∧
    ¬ resultFieldsOk c6FailedRow := by
  refine ⟨by decide, by decide, by decide, ?_⟩
  unfold resultFieldsOk
  decide

def c9Job : BatchJob :=
  { id := 1, name := "job", targetTokenAddress := none, rateLimit := 5,
    status := "pending", totalAddresses := 0, processedAddresses := 0,
    successfulLookups := 0, failedLookups := 0, createdAt := some 0,
    completedAt := none }

def c9Store : MemStorage := { batchJobs := [(1, c9Job)], addressResults := [] }

/-- C9 counterexample: initializing a job over the list with a repeated
address creates two AddressResult rows for the same (job, address) pair,
refuting exactly-one-row-per-pair for lists containing a repeated
address. -/
theorem c9_counterexample :
    (rowsFor (startProcessing 1 ["a", "a"] c9Store 0).1 1 "a").length = 2 := by
  decide

def c5Job : BatchJob :=
  { id := 1, name := "batch", targetTokenAddress := none, rateLimit := 5,
    status := "pending", totalAddresses := 0, processedAddresses := 0,
    successfulLookups := 0, failedLookups := 0, createdAt := some 0,
    completedAt := none }

def c5Store : MemStorage := { batchJobs := [(1, c5Job)], addressResults := [] }

/-- Upstream of the end-to-end scenario: success for addrA (index 0) and
addrC (index 2), permanent HTTP 500 for addrB (index 1). -/
def c5Oracle : Nat → Nat → AttemptResult := fun i _ =>
  if i = 0 then .httpResponse 200 "OK" 10
  else if i = 1 then .httpResponse 500 "Internal Server Error" 0
  else .httpResponse 200 "OK" 30

def c5Run : Option RunState :=
  processRoute 1 ["addrA", "addrB", "addrC"] c5Oracle noFaultsAt c5Store 0

/-- C5: the end-to-end scenario over addrA, addrB, addrC at rate 5 with a
permanent 500 for addrB ends with totalAddresses 3, processedAddresses 3,
successfulLookups 2, failedLookups 1, status completed with completedAt
set, and the addrB row failed with a non-empty error message. -/
theorem c5_end_to_end :
    (c5Run.map fun st => (MemStorage.getBatchJob st.store 1).map
      (fun j => (j.totalAddresses, j.processedAddresses, j.successfulLookups,
        j.failedLookups, j.status, j.completedAt.isSome))) =
      some (some (3, 3, 2, 1, "completed", true)) ∧
    (c5Run.map fun st =>
      ((MemStorage.getAddressResultsByBatchId st.store 1).find?
        (fun r => r.address == "addrB")).map
          (fun r => (r.status, r.errorMessage))) =
      some (some ("failed", some "HTTP 500: Internal Server Error")) ∧
    "HTTP 500: Internal Server Error" ≠ "" := by
  exact ⟨by rfl, by rfl, by decide⟩

theorem getAssoc_mem_map_snd {α : Type} (m : List (Nat × α)) (k : Nat) (v : α)
    (h : getAssoc m k = some v) : v ∈ m.map Prod.snd := by
  induction m with
  | nil => simp [getAssoc] at h
  | cons p rest ih =>
      rw [getAssoc_cons] at h
      by_cases hp : p.1 = k
      · simp [hp] at h
        simp [← h]
      · simp [hp] at h
        simp [ih h]

theorem mem_insertByTime (r x : AddressResult) (l : List AddressResult) :
    x ∈ MemStorage.insertByTime r l ↔ x = r ∨ x ∈ l := by
  induction l with
  | nil => simp [MemStorage.insertByTime]
  | cons y ys ih =>
      by_cases h : MemStorage.resultLe y r
      · simp [MemStorage.insertByTime, h, ih]
        tauto
      · simp [MemStorage.insertByTime, h]

theorem mem_sortByTime (x : AddressResult) (l : List AddressResult) :
    x ∈ MemStorage.sortByTime l ↔ x ∈ l := by
  induction l with
  | nil => simp [MemStorage.sortByTime]
  | cons y ys ih => simp [MemStorage.sortByTime, mem_insertByTime, ih]

theorem find_entry_of_rowsExist (s : MemStorage) (jobId : Nat) (a : String)
    (h : RowsExist s jobId a) :
    ∃ entry, (MemStorage.getAddressResultsByBatchId s jobId).find?
      (fun r => r.address == a) = some entry := by
  obtain ⟨r, hmem, hjob, haddr⟩ := h
  have hmem2 : r ∈ MemStorage.getAddressResultsByBatchId s jobId := by
    rw [MemStorage.getAddressResultsByBatchId, mem_sortByTime, List.mem_filter]
    exact ⟨hmem, by simp [hjob]⟩
  have : (MemStorage.getAddressResultsByBatchId s jobId).find?
      (fun r => r.address == a) |>.isSome := by
    rw [List.find?_isSome]
    exact ⟨r, hmem2, by simp [haddr]⟩
  obtain ⟨entry, hentry⟩ := Option.isSome_iff_exists.mp this
  exact ⟨entry, hentry⟩

theorem setAssoc_split {α : Type} (m : List (Nat × α)) (k : Nat) (v w : α)
    (h : getAssoc m k = some w) :
    ∃ l1 l2, m = l1 ++ (k, w) :: l2 ∧ setAssoc m k v = l1 ++ (k, v) :: l2 := by
  induction m with
  | nil => simp [getAssoc] at h
  | cons p rest ih =>
      rw [getAssoc_cons] at h
      by_cases hp : p.1 = k
      · simp [hp] at h
        refine ⟨[], rest, ?_, ?_⟩
        · simp [← hp, ← h]
        · simp [setAssoc, hp]
      · simp [hp] at h
        obtain ⟨l1, l2, hm, hs⟩ := ih h
        refine ⟨p :: l1, l2, by simp [hm], ?_⟩
        simp [setAssoc, hp, hs]

/-- Rows survive an updateAddressResult that does not touch the
batchJobId and address fields: a row of the job for the address still
exists afterwards. -/
theorem rowsExist_updateAddressResult (s : MemStorage) (id now : Nat)
    (u : ResultUpdate) (hb : u.batchJobId = none) (ha : u.address = none)
    (jobId : Nat) (a : String) (h : RowsExist s jobId a) :
    RowsExist (MemStorage.updateAddressResult s id u now).2 jobId a := by
  rcases hg : getAssoc s.addressResults id with _ | r0
  · simpa [MemStorage.updateAddressResult, hg] using h
  · obtain ⟨l1, l2, hm, hs⟩ := setAssoc_split s.addressResults id
      (applyResultUpdate r0 u now) r0 hg
    obtain ⟨r, hmem, hjob, haddr⟩ := h
    have hmem2 : r ∈ l1.map Prod.snd ++ r0 :: l2.map Prod.snd := by
      have := hm ▸ hmem
      simpa using this
    simp only [MemStorage.updateAddressResult, hg]
    have hshape : (MemStorage.mk s.batchJobs (setAssoc s.addressResults id
        (applyResultUpdate r0 u now))).addressResults.map Prod.snd =
        l1.map Prod.snd ++ applyResultUpdate r0 u now :: l2.map Prod.snd := by
      simp [hs]
    rcases List.mem_append.mp hmem2 with h1 | h2
    · refine ⟨r, ?_, hjob, haddr⟩
      rw [hshape]
      exact List.mem_append.mpr (Or.inl h1)
    · rcases List.mem_cons.mp h2 with he | h3
      · -- the replaced entry: its spread merge keeps batchJobId and address
        refine ⟨applyResultUpdate r0 u now, ?_, ?_, ?_⟩
        · rw [hshape]
          exact List.mem_append.mpr (Or.inr (List.mem_cons_self _ _))
        · rw [show (applyResultUpdate r0 u now).batchJobId = r0.batchJobId by
            simp [applyResultUpdate, hb]]
          rw [← he]; exact hjob
        · rw [show (applyResultUpdate r0 u now).address = r0.address by
            simp [applyResultUpdate, ha]]
          rw [← he]; exact haddr
      · refine ⟨r, ?_, hjob, haddr⟩
        rw [hshape]
        exact List.mem_append.mpr (Or.inr (List.mem_cons_of_mem _ h3))

theorem updateBatchJob_addressResults (s : MemStorage) (id : Nat) (u : JobUpdate) :
    (MemStorage.updateBatchJob s id u).2.addressResults = s.addressResults := by
  rcases h : getAssoc s.batchJobs id with _ | j <;>
    simp [MemStorage.updateBatchJob, h]

theorem updateAddressResult_batchJobs (s : MemStorage) (id now : Nat)
    (u : ResultUpdate) :
    (MemStorage.updateAddressResult s id u now).2.batchJobs = s.batchJobs := by
  rcases h : getAssoc s.addressResults id with _ | r <;>
    simp [MemStorage.updateAddressResult, h]

theorem getBatchJob_updateBatchJob_self (s : MemStorage) (id : Nat)
    (u : JobUpdate) :
    MemStorage.getBatchJob (MemStorage.updateBatchJob s id u).2 id =
      (MemStorage.getBatchJob s id).map (fun j => applyJobUpdate j u) := by
  rcases h : getAssoc s.batchJobs id with _ | j <;>
    simp [MemStorage.updateBatchJob, MemStorage.getBatchJob, h,
      getAssoc_setAssoc_self]

/-- RowsExist only looks at addressResults, so it transfers across stores
with equal addressResults. -/
theorem rowsExist_of_eq_addressResults (s1 s2 : MemStorage) (jobId : Nat)
    (a : String) (he : s2.addressResults = s1.addressResults)
    (h : RowsExist s1 jobId a) : RowsExist s2 jobId a := by
  obtain ⟨r, hmem, hjob, haddr⟩ := h
  exact ⟨r, by rw [he]; exact hmem, hjob, haddr⟩

/-- What the inner try of one iteration does to the runner state, on both
exits: counters and tally untouched, only result writes appended to the
trace, job table untouched, rows preserved; on a normal exit the Bool is
exactly no-processing-fault and successful lookup and no-success-fault,
and on an exception that conjunction is false. -/
theorem processEntry_facts (attempt : Nat → AttemptResult) (f : AddrFaults)
    (d i rid : Nat) (st : RunState) :
    (∀ msg stE, processEntry attempt f d i rid st = .error (msg, stE) →
      (stE.processedCount = st.processedCount ∧
       stE.successCount = st.successCount ∧
       stE.failedCount = st.failedCount ∧
       stE.outcomes = st.outcomes ∧
       (∀ u, Ev.jobWrite u ∈ stE.trace → Ev.jobWrite u ∈ st.trace) ∧
       stE.store.batchJobs = st.store.batchJobs ∧
       (∀ jobId a, RowsExist st.store jobId a → RowsExist stE.store jobId a)) ∧
      (!f.onProcessingWrite && lookupOk attempt d && !f.onSuccessWrite) = false) ∧
    (∀ st2 flag, processEntry attempt f d i rid st = .ok (st2, flag) →
      (st2.processedCount = st.processedCount ∧
       st2.successCount = st.successCount ∧
       st2.failedCount = st.failedCount ∧
       st2.outcomes = st.outcomes ∧
       (∀ u, Ev.jobWrite u ∈ st2.trace → Ev.jobWrite u ∈ st.trace) ∧
       st2.store.batchJobs = st.store.batchJobs ∧
       (∀ jobId a, RowsExist st.store jobId a → RowsExist st2.store jobId a)) ∧
      flag = (!f.onProcessingWrite && lookupOk attempt d && !f.onSuccessWrite)) := by
  have hw : ∀ (stx : RunState) (ix ridx : Nat) (u : ResultUpdate),
      u.batchJobId = none → u.address = none →
      ((writeResult stx ix ridx u).processedCount = stx.processedCount ∧
       (writeResult stx ix ridx u).successCount = stx.successCount ∧
       (writeResult stx ix ridx u).failedCount = stx.failedCount ∧
       (writeResult stx ix ridx u).outcomes = stx.outcomes ∧
       (∀ v, Ev.jobWrite v ∈ (writeResult stx ix ridx u).trace →
          Ev.jobWrite v ∈ stx.trace) ∧
       (writeResult stx ix ridx u).store.batchJobs = stx.store.batchJobs ∧
       (∀ jobId a, RowsExist stx.store jobId a →
          RowsExist (writeResult stx ix ridx u).store jobId a)) := by
    intro stx ix ridx u hb ha
    refine ⟨rfl, rfl, rfl, rfl, ?_, ?_, ?_⟩
    · intro v hv
      simp only [writeResult, List.mem_append] at hv
      rcases hv with h1 | h2
      · exact h1
      · simp at h2
    · simp [writeResult, updateAddressResult_batchJobs]
    · intro jobId a h
      exact rowsExist_updateAddressResult _ _ _ _ hb ha _ _ h
  unfold processEntry
  by_cases hpf : f.onProcessingWrite
  · simp only [hpf, if_true]
    constructor
    · intro msg stE he
      refine ⟨?_, by simp⟩
      cases he
      exact ⟨rfl, rfl, rfl, rfl, fun u h => h, rfl, fun _ _ h => h⟩
    · intro st2 flag he
      cases he
  · simp only [hpf, if_false, Bool.not_false, Bool.true_and]
    have h1 := hw st i rid processingUpd rfl rfl
    rcases hlo : (balanceLookup attempt d).outcome with body | msg0
    · have hok : lookupOk attempt d = true := by simp [lookupOk, hlo]
      by_cases hsf : f.onSuccessWrite
      · by_cases hff : f.onFailureWrite
        · simp only [hsf, hff, if_true]
          constructor
          · intro msg stE he
            cases he
            exact ⟨h1, by simp [hsf]⟩
          · intro st2 flag he
            cases he
        · simp only [hsf, hff, if_true, if_false]
          constructor
          · intro msg stE he
            cases he
          · intro st2 flag he
            cases he
            have h2 := hw (writeResult st i rid processingUpd) i rid
              (failedUpd storeFaultMsg) rfl rfl
            refine ⟨?_, by simp [hsf]⟩
            obtain ⟨a1, a2, a3, a4, a5, a6, a7⟩ := h1
            obtain ⟨b1, b2, b3, b4, b5, b6, b7⟩ := h2
            exact ⟨b1.trans a1, b2.trans a2, b3.trans a3, b4.trans a4,
              fun u h => a5 u (b5 u h), b6.trans a6,
              fun jobId a h => b7 jobId a (a7 jobId a h)⟩
      · simp only [hsf, if_false]
        constructor
        · intro msg stE he
          cases he
        · intro st2 flag he
          cases he
          have h2 := hw (writeResult st i rid processingUpd) i rid
            (successUpd body) rfl rfl
          refine ⟨?_, by simp [hsf, hok]⟩
          obtain ⟨a1, a2, a3, a4, a5, a6, a7⟩ := h1
          obtain ⟨b1, b2, b3, b4, b5, b6, b7⟩ := h2
          exact ⟨b1.trans a1, b2.trans a2, b3.trans a3, b4.trans a4,
            fun u h => a5 u (b5 u h), b6.trans a6,
            fun jobId a h => b7 jobId a (a7 jobId a h)⟩
    · have hok : lookupOk attempt d = false := by simp [lookupOk, hlo]
      by_cases hff : f.onFailureWrite
      · simp only [hff, if_true]
        constructor
        · intro msg stE he
          cases he
          exact ⟨h1, by simp [hok]⟩
        · intro st2 flag he
          cases he
      · simp only [hff, if_false]
        constructor
        · intro msg stE he
          cases he
        · intro st2 flag he
          cases he
          have h2 := hw (writeResult st i rid processingUpd) i rid
            (failedUpd msg0) rfl rfl
          refine ⟨?_, by simp [hok]⟩
          obtain ⟨a1, a2, a3, a4, a5, a6, a7⟩ := h1
          obtain ⟨b1, b2, b3, b4, b5, b6, b7⟩ := h2
          exact ⟨b1.trans a1, b2.trans a2, b3.trans a3, b4.trans a4,
            fun u h => a5 u (b5 u h), b6.trans a6,
            fun jobId a h => b7 jobId a (a7 jobId a h)⟩

theorem getBatchJob_congr (s1 s2 : MemStorage) (id : Nat)
    (h : s2.batchJobs = s1.batchJobs) :
    MemStorage.getBatchJob s2 id = MemStorage.getBatchJob s1 id := by
  simp [MemStorage.getBatchJob, h]

/-- What one loop iteration does when a result row is found: the
processed counter moves by one, exactly one of the success and failure
counters moves by one (success exactly when the iteration is fault-free
and the lookup succeeds), one tally entry is appended, every job write
appended carries the updated counters, the totalAddresses of the stored
job is untouched, and rows survive. -/
theorem processOne_found (jobId n d : Nat) (oracle : Nat → Nat → AttemptResult)
    (faults : Nat → AddrFaults) (i : Nat) (addr : String) (st : RunState)
    (entry : AddressResult)
    (hfind : (MemStorage.getAddressResultsByBatchId st.store jobId).find?
      (fun r => r.address == addr) = some entry) :
    (processOne jobId n d oracle faults i addr st).processedCount =
      st.processedCount + 1 ∧
    (processOne jobId n d oracle faults i addr st).successCount =
      st.successCount + (if addrSucceeds oracle faults d i then 1 else 0) ∧
    (processOne jobId n d oracle faults i addr st).failedCount =
      st.failedCount + (if addrSucceeds oracle faults d i then 0 else 1) ∧
    (processOne jobId n d oracle faults i addr st).outcomes =
      st.outcomes ++ [if addrSucceeds oracle faults d i then AddrOutcome.success
        else AddrOutcome.failure] ∧
    (∀ u, Ev.jobWrite u ∈ (processOne jobId n d oracle faults i addr st).trace →
      Ev.jobWrite u ∈ st.trace ∨
      u = countersUpd (st.processedCount + 1)
        ((processOne jobId n d oracle faults i addr st).successCount)
        ((processOne jobId n d oracle faults i addr st).failedCount)) ∧
    (∀ jb, MemStorage.getBatchJob st.store jobId = some jb →
      ∃ jb2, MemStorage.getBatchJob
          (processOne jobId n d oracle faults i addr st).store jobId = some jb2 ∧
        jb2.totalAddresses = jb.totalAddresses) ∧
    (∀ a2, RowsExist st.store jobId a2 →
      RowsExist (processOne jobId n d oracle faults i addr st).store jobId a2) := by
  rcases hpe : processEntry (oracle i) (faults i) d i entry.id st with e | p
  · obtain ⟨msg, stE⟩ := e
    have hf := (processEntry_facts (oracle i) (faults i) d i entry.id st).1
      msg stE hpe
    have hA : addrSucceeds oracle faults d i = false := hf.2
    obtain ⟨a1, a2, a3, a4, a5, a6, a7⟩ := hf.1
    simp only [processOne, hfind, hpe]
    refine ⟨by simp [a1], by simp [a2, hA], by simp [a3, hA], by simp [a4, hA],
      ?_, ?_, ?_⟩
    · intro u hu
      exact Or.inl (a5 u hu)
    · intro jb hjb
      refine ⟨jb, ?_, rfl⟩
      rw [getBatchJob_congr st.store stE.store jobId a6]
      exact hjb
    · intro a2x h
      exact a7 jobId a2x h
  · obtain ⟨st2, flag⟩ := p
    have hf := (processEntry_facts (oracle i) (faults i) d i entry.id st).2
      st2 flag hpe
    have hflag : addrSucceeds oracle faults d i = flag := hf.2.symm
    obtain ⟨a1, a2, a3, a4, a5, a6, a7⟩ := hf.1
    simp only [processOne, hfind, hpe]
    by_cases hlt : st2.processedCount + 1 < n
    · simp only [writeJob, hlt, if_true]
      refine ⟨by simp [a1], ?_, ?_, ?_, ?_, ?_, ?_⟩
      · rw [hflag]; cases flag <;> simp [a2]
      · rw [hflag]; cases flag <;> simp [a3]
      · rw [hflag]; cases flag <;> simp [a4]
      · intro u hu
        simp only [List.mem_append] at hu
        rcases hu with (hu | hu) | hu
        · exact Or.inl (a5 u hu)
        · simp only [List.mem_singleton, Ev.jobWrite.injEq] at hu
          right
          rw [hu]
          simp [a1]
        · simp at hu
      · intro jb hjb
        have hj2 : MemStorage.getBatchJob st2.store jobId = some jb := by
          rw [getBatchJob_congr st.store st2.store jobId a6]
          exact hjb
        refine ⟨applyJobUpdate jb (countersUpd (st2.processedCount + 1)
          (st2.successCount + if flag = true then 1 else 0)
          (st2.failedCount + if flag = false then 1 else 0)), ?_, ?_⟩
        · rw [getBatchJob_updateBatchJob_self, hj2]
          simp
        · simp [applyJobUpdate, countersUpd]
      · intro a2x h
        have h2 := a7 jobId a2x h
        exact rowsExist_of_eq_addressResults st2.store _ jobId a2x
          (updateBatchJob_addressResults _ _ _) h2
    · simp only [writeJob, hlt, if_false]
      refine ⟨by simp [a1], ?_, ?_, ?_, ?_, ?_, ?_⟩
      · rw [hflag]; cases flag <;> simp [a2]
      · rw [hflag]; cases flag <;> simp [a3]
      · rw [hflag]; cases flag <;> simp [a4]
      · intro u hu
        simp only [List.mem_append] at hu
        rcases hu with hu | hu
        · exact Or.inl (a5 u hu)
        · simp only [List.mem_singleton, Ev.jobWrite.injEq] at hu
          right
          rw [hu]
          simp [a1]
      · intro jb hjb
        have hj2 : MemStorage.getBatchJob st2.store jobId = some jb := by
          rw [getBatchJob_congr st.store st2.store jobId a6]
          exact hjb
        refine ⟨applyJobUpdate jb (countersUpd (st2.processedCount + 1)
          (st2.successCount + if flag = true then 1 else 0)
          (st2.failedCount + if flag = false then 1 else 0)), ?_, ?_⟩
        · rw [getBatchJob_updateBatchJob_self, hj2]
          simp
        · simp [applyJobUpdate, countersUpd]
      · intro a2x h
        have h2 := a7 jobId a2x h
        exact rowsExist_of_eq_addressResults st2.store _ jobId a2x
          (updateBatchJob_addressResults _ _ _) h2

theorem mem_setAssoc_self {α : Type} (m : List (Nat × α)) (k : Nat) (v : α) :
    (k, v) ∈ setAssoc m k v := by
  induction m with
  | nil => simp [setAssoc]
  | cons p rest ih =>
      by_cases h : p.1 = k
      · simp [setAssoc, h]
      · simp [setAssoc, h]
        tauto

theorem mem_setAssoc_of_ne {α : Type} (m : List (Nat × α)) (k : Nat) (v : α)
    (p : Nat × α) (hp : p ∈ m) (hne : p.1 ≠ k) : p ∈ setAssoc m k v := by
  induction m with
  | nil => simp at hp
  | cons q rest ih =>
      by_cases h : q.1 = k
      · rcases List.mem_cons.mp hp with he | hm
        · exact absurd (he ▸ hne) (by simp [h])
        · simp [setAssoc, h]
          tauto
      · rcases List.mem_cons.mp hp with he | hm
        · simp [setAssoc, h, he]
        · simp [setAssoc, h]
          exact Or.inr (ih hm)

theorem createPendingRows_batchJobs (jobId : Nat) :
    ∀ (l : List String) (s : MemStorage) (c : Nat),
      (createPendingRows jobId l s c).1.batchJobs = s.batchJobs := by
  intro l
  induction l with
  | nil => intro s c; rfl
  | cons x rest ih =>
      intro s c
      simp only [createPendingRows]
      rw [ih]
      rfl

theorem createPendingRows_preserves (jobId : Nat) :
    ∀ (l : List String) (s : MemStorage) (c : Nat) (p : Nat × AddressResult),
      p ∈ s.addressResults → p.1 < c →
      p ∈ (createPendingRows jobId l s c).1.addressResults := by
  intro l
  induction l with
  | nil => intro s c p hp _; exact hp
  | cons x rest ih =>
      intro s c p hp hlt
      simp only [createPendingRows]
      refine ih _ (c + 1) p ?_ (by omega)
      exact mem_setAssoc_of_ne _ _ _ p hp (by omega)

theorem createPendingRows_rowsExist (jobId : Nat) :
    ∀ (l : List String) (s : MemStorage) (c : Nat) (a : String), a ∈ l →
      RowsExist (createPendingRows jobId l s c).1 jobId a := by
  intro l
  induction l with
  | nil => intro s c a ha; simp at ha
  | cons x rest ih =>
      intro s c a ha
      rcases List.mem_cons.mp ha with he | hm
      · subst he
        simp only [createPendingRows]
        have hmem : (c, pendingRow jobId a c) ∈
            (MemStorage.createAddressResult s
              { batchJobId := jobId, address := a, status := some "pending",
                data := none, errorMessage := none } c c).2.addressResults := by
          simp only [MemStorage.createAddressResult]
          exact mem_setAssoc_self _ _ _
        have hkeep := createPendingRows_preserves jobId rest _ (c + 1)
          (c, pendingRow jobId a c) hmem (by omega)
        exact ⟨pendingRow jobId a c,
          List.mem_map.mpr ⟨(c, pendingRow jobId a c), hkeep, rfl⟩, rfl, rfl⟩
      · exact ih _ (c + 1) a hm

theorem startProcessing_rowsExist (jobId : Nat) (addresses : List String)
    (s : MemStorage) (clock : Nat) (a : String) (ha : a ∈ addresses) :
    RowsExist (startProcessing jobId addresses s clock).1 jobId a :=
  createPendingRows_rowsExist jobId addresses _ (clock + 1) a ha

theorem startProcessing_getBatchJob (jobId : Nat) (addresses : List String)
    (s : MemStorage) (clock : Nat) (job : BatchJob)
    (hjob : MemStorage.getBatchJob s jobId = some job) :
    MemStorage.getBatchJob (startProcessing jobId addresses s clock).1 jobId =
      some (applyJobUpdate job
        { status := some "processing",
          totalAddresses := some addresses.length }) := by
  simp only [startProcessing]
  rw [getBatchJob_congr (MemStorage.updateBatchJob s jobId
      { status := some "processing", totalAddresses := some addresses.length }).2
    _ jobId (createPendingRows_batchJobs jobId addresses _ (clock + 1))]
  rw [getBatchJob_updateBatchJob_self, hjob]
  rfl

/-- What the whole loop does, for every fault assignment, entered at
index i with the row of every remaining address present and the counters
coupled: every address is processed (the tally grows by exactly the
expected entries, the processed counter by the list length), the counter
coupling processed = successes + failures is preserved, every job write
in the trace either predates the loop or carries coupled counters bounded
by n, the stored totalAddresses never moves, and rows survive. -/
theorem runLoop_facts (jobId n d : Nat) (oracle : Nat → Nat → AttemptResult)
    (faults : Nat → AddrFaults) :
    ∀ (l : List String) (i : Nat) (st : RunState),
      (∀ a ∈ l, RowsExist st.store jobId a) →
      st.processedCount = st.successCount + st.failedCount →
      st.processedCount + l.length ≤ n →
      (runLoop jobId n d oracle faults i l st).processedCount =
        st.processedCount + l.length ∧
      (runLoop jobId n d oracle faults i l st).processedCount =
        (runLoop jobId n d oracle faults i l st).successCount +
        (runLoop jobId n d oracle faults i l st).failedCount ∧
      (runLoop jobId n d oracle faults i l st).outcomes =
        st.outcomes ++ expectedOutcomes oracle faults d i l ∧
      (∀ u, Ev.jobWrite u ∈ (runLoop jobId n d oracle faults i l st).trace →
        Ev.jobWrite u ∈ st.trace ∨
        ∃ p sc fc, u = countersUpd p sc fc ∧ p = sc + fc ∧ p ≤ n) ∧
      (∀ jb, MemStorage.getBatchJob st.store jobId = some jb →
        ∃ jb2, MemStorage.getBatchJob
            (runLoop jobId n d oracle faults i l st).store jobId = some jb2 ∧
          jb2.totalAddresses = jb.totalAddresses) ∧
      (∀ a2, RowsExist st.store jobId a2 →
        RowsExist (runLoop jobId n d oracle faults i l st).store jobId a2) := by
  intro l
  induction l with
  | nil =>
      intro i st hrows hpc hbound
      refine ⟨by simp [runLoop], by simp [runLoop, hpc], ?_, ?_, ?_, ?_⟩
      · simp [runLoop, expectedOutcomes]
      · intro u hu; exact Or.inl hu
      · intro jb hjb; exact ⟨jb, hjb, rfl⟩
      · intro a2 h; exact h
  | cons a rest ih =>
      intro i st hrows hpc hbound
      obtain ⟨entry, hentry⟩ := find_entry_of_rowsExist st.store jobId a
        (hrows a (List.mem_cons_self a rest))
      have hP := processOne_found jobId n d oracle faults i a st entry hentry
      obtain ⟨p1, p2, p3, p4, p5, p6, p7⟩ := hP
      have hsum : (processOne jobId n d oracle faults i a st).successCount +
          (processOne jobId n d oracle faults i a st).failedCount =
          st.successCount + st.failedCount + 1 := by
        rw [p2, p3]
        by_cases h : addrSucceeds oracle faults d i <;> simp [h] <;> omega
      have hrows2 : ∀ a2 ∈ rest,
          RowsExist (processOne jobId n d oracle faults i a st).store jobId a2 :=
        fun a2 ha2 => p7 a2 (hrows a2 (List.mem_cons_of_mem a ha2))
      have hpc2 : (processOne jobId n d oracle faults i a st).processedCount =
          (processOne jobId n d oracle faults i a st).successCount +
          (processOne jobId n d oracle faults i a st).failedCount := by
        rw [p1, hsum, hpc]
      have hbound2 : (processOne jobId n d oracle faults i a st).processedCount +
          rest.length ≤ n := by
        rw [p1]
        simp only [List.length_cons] at hbound
        omega
      have hI := ih (i + 1) (processOne jobId n d oracle faults i a st)
        hrows2 hpc2 hbound2
      obtain ⟨q1, q2, q3, q4, q5, q6⟩ := hI
      simp only [runLoop]
      refine ⟨?_, q2, ?_, ?_, ?_, ?_⟩
      · rw [q1, p1]
        simp [List.length_cons]
        omega
      · rw [q3, p4, expectedOutcomes]
        simp
      · intro u hu
        rcases q4 u hu with h2 | h2
        · rcases p5 u h2 with h3 | h3
          · exact Or.inl h3
          · refine Or.inr ⟨st.processedCount + 1,
              (processOne jobId n d oracle faults i a st).successCount,
              (processOne jobId n d oracle faults i a st).failedCount,
              h3, ?_, ?_⟩
            · rw [hsum, hpc]
            · simp only [List.length_cons] at hbound
              omega
        · exact Or.inr h2
      · intro jb hjb
        obtain ⟨jb1, hjb1, ht1⟩ := p6 jb hjb
        obtain ⟨jb2, hjb2, ht2⟩ := q5 jb1 hjb1
        exact ⟨jb2, hjb2, ht2.trans ht1⟩
      · intro a2 h
        exact q6 a2 (p7 a2 h)

/-- C1: for every run of the process route, with any fault assignment on
result-store writes, every job-counter persist in the trace carries
processedAddresses = successfulLookups + failedLookups and
processedAddresses bounded by the address count, never touching
totalAddresses; and the finally persisted job satisfies
processedAddresses = successfulLookups + failedLookups and
processedAddresses bounded by totalAddresses = the address count. -/
theorem c1_job_counters_invariant (jobId : Nat) (addresses : List String)
    (oracle : Nat → Nat → AttemptResult) (faults : Nat → AddrFaults)
    (s : MemStorage) (clock : Nat) (job : BatchJob) (st2 : RunState)
    (hjob : MemStorage.getBatchJob s jobId = some job)
    (hrun : processRoute jobId addresses oracle faults s clock = some st2) :
    (∀ u, Ev.jobWrite u ∈ st2.trace →
      ∃ p sc fc, u.processedAddresses = some p ∧
        u.successfulLookups = some sc ∧ u.failedLookups = some fc ∧
        p = sc + fc ∧ p ≤ addresses.length ∧ u.totalAddresses = none) ∧
    (∃ jb, MemStorage.getBatchJob st2.store jobId = some jb ∧
      jb.totalAddresses = addresses.length ∧
      jb.processedAddresses = jb.successfulLookups + jb.failedLookups ∧
      jb.processedAddresses ≤ jb.totalAddresses) := by
  simp only [processRoute, hjob, Option.some.injEq] at hrun
  subst hrun
  set st0 : RunState :=
    { store := (startProcessing jobId addresses s clock).1
      clock := (startProcessing jobId addresses s clock).2
      processedCount := 0, successCount := 0, failedCount := 0,
      trace := [], outcomes := [] } with hst0
  set rl := if job.rateLimit == 0 then 5 else job.rateLimit with hrl
  have hR := runLoop_facts jobId addresses.length (requestDelayOf rl) oracle
    faults addresses 0 st0
    (fun a ha => startProcessing_rowsExist jobId addresses s clock a ha)
    rfl (by simp)
  obtain ⟨r1, r2, r3, r4, r5, r6⟩ := hR
  set L := runLoop jobId addresses.length (requestDelayOf rl) oracle faults 0
    addresses st0 with hL
  have hjb0 := startProcessing_getBatchJob jobId addresses s clock job hjob
  constructor
  · intro u hu
    simp only [processAddressesBatch, writeJob, List.mem_append] at hu
    rcases hu with hu | hu
    · rcases r4 u hu with h2 | ⟨p, sc, fc, hupd, hpsf, hple⟩
      · simp [hst0] at h2
      · subst hupd
        exact ⟨p, sc, fc, rfl, rfl, rfl, hpsf, hple, rfl⟩
    · simp only [List.mem_singleton, Ev.jobWrite.injEq] at hu
      subst hu
      refine ⟨L.processedCount, L.successCount, L.failedCount,
        rfl, rfl, rfl, r2, ?_, rfl⟩
      rw [r1]
      simp
  · obtain ⟨jb1, hjb1, ht1⟩ := r5 (applyJobUpdate job
      { status := some "processing", totalAddresses := some addresses.length })
      hjb0
    have htot : jb1.totalAddresses = addresses.length := by
      rw [ht1]
      simp [applyJobUpdate]
    refine ⟨applyJobUpdate jb1 (completedUpd L.processedCount L.successCount
      L.failedCount L.clock), ?_, ?_, ?_, ?_⟩
    · simp only [processAddressesBatch, writeJob]
      rw [getBatchJob_updateBatchJob_self, hjb1]
      rfl
    · simp [applyJobUpdate, completedUpd, htot]
    · simp [applyJobUpdate, completedUpd, r2]
    · simp only [applyJobUpdate, completedUpd, htot]
      simp only [Option.getD_some]
      rw [r1]
      simp

def c1Job : BatchJob :=
  { id := 1, name := "job", targetTokenAddress := none, rateLimit := 5,
    status := "pending", totalAddresses := 0, processedAddresses := 0,
    successfulLookups := 0, failedLookups := 0, createdAt := some 0,
    completedAt := none }

def c1Store : MemStorage := { batchJobs := [(1, c1Job)], addressResults := [] }

def c1Oracle : Nat → Nat → AttemptResult := fun _ _ => .httpResponse 200 "OK" 3

def c1Run : RunState :=
  (processRoute 1 ["x"] c1Oracle noFaultsAt c1Store 0).getD
    { store := { batchJobs := [], addressResults := [] }, clock := 0,
      processedCount := 0, successCount := 0, failedCount := 0,
      trace := [], outcomes := [] }

theorem c1_job_counters_invariant_witness :
    (∀ u, Ev.jobWrite u ∈ c1Run.trace →
      ∃ p sc fc, u.processedAddresses = some p ∧
        u.successfulLookups = some sc ∧ u.failedLookups = some fc ∧
        p = sc + fc ∧ p ≤ 1 ∧ u.totalAddresses = none) ∧
    (∃ jb, MemStorage.getBatchJob c1Run.store 1 = some jb ∧
      jb.totalAddresses = 1 ∧
      jb.processedAddresses = jb.successfulLookups + jb.failedLookups ∧
      jb.processedAddresses ≤ jb.totalAddresses) :=
  c1_job_counters_invariant 1 ["x"] c1Oracle noFaultsAt c1Store 0 c1Job c1Run
    rfl rfl

theorem expectedOutcomes_length (oracle : Nat → Nat → AttemptResult)
    (faults : Nat → AddrFaults) (d : Nat) :
    ∀ (l : List String) (i : Nat),
      (expectedOutcomes oracle faults d i l).length = l.length := by
  intro l
  induction l with
  | nil => intro i; rfl
  | cons a rest ih => intro i; simp [expectedOutcomes, ih]

theorem expectedOutcomes_getD (oracle : Nat → Nat → AttemptResult)
    (faults : Nat → AddrFaults) (d : Nat) :
    ∀ (l : List String) (i j : Nat), j < l.length →
      (expectedOutcomes oracle faults d i l).getD j AddrOutcome.skipped =
        (if addrSucceeds oracle faults d (i + j) then AddrOutcome.success
         else AddrOutcome.failure) := by
  intro l
  induction l with
  | nil => intro i j hj; simp at hj
  | cons a rest ih =>
      intro i j hj
      cases j with
      | zero => simp [expectedOutcomes]
      | succ j2 =>
          simp only [expectedOutcomes, List.getD_cons_succ]
          rw [ih (i + 1) j2 (by simpa using hj)]
          have : i + 1 + j2 = i + (j2 + 1) := by omega
          rw [this]

/-- C4: the runner is total over every fault assignment on result-store
writes: started on a store holding a row for every address with zeroed
counters and tally, it reaches every address (the tally covers the whole
list and the processed counter equals the list length, with processed =
successes + failures), and every iteration whose processing write,
success write, or reachable failure write throws is counted as a
failure, after which the loop moves to the next address - no fault
escapes the loop. -/
theorem c4_failure_isolation (jobId : Nat) (addresses : List String)
    (rateLimit : Nat) (oracle : Nat → Nat → AttemptResult)
    (faults : Nat → AddrFaults) (st0 : RunState)
    (hrows : ∀ a ∈ addresses, RowsExist st0.store jobId a)
    (hp : st0.processedCount = 0) (hs : st0.successCount = 0)
    (hf : st0.failedCount = 0) (ho : st0.outcomes = []) :
    (processAddressesBatch jobId addresses rateLimit oracle faults st0).outcomes =
      expectedOutcomes oracle faults (requestDelayOf rateLimit) 0 addresses ∧
    (processAddressesBatch jobId addresses rateLimit oracle faults
      st0).outcomes.length = addresses.length ∧
    (processAddressesBatch jobId addresses rateLimit oracle faults
      st0).processedCount = addresses.length ∧
    (processAddressesBatch jobId addresses rateLimit oracle faults
      st0).processedCount =
      (processAddressesBatch jobId addresses rateLimit oracle faults
        st0).successCount +
      (processAddressesBatch jobId addresses rateLimit oracle faults
        st0).failedCount ∧
    (∀ i, i < addresses.length →
      ((faults i).onProcessingWrite = true ∨
       ((faults i).onSuccessWrite = true ∧
         lookupOk (oracle i) (requestDelayOf rateLimit) = true) ∨
       ((faults i).onFailureWrite = true ∧
         (lookupOk (oracle i) (requestDelayOf rateLimit) = false ∨
          (faults i).onSuccessWrite = true))) →
      (processAddressesBatch jobId addresses rateLimit oracle faults
        st0).outcomes.getD i AddrOutcome.skipped = AddrOutcome.failure) := by
  have hR := runLoop_facts jobId addresses.length (requestDelayOf rateLimit)
    oracle faults addresses 0 st0 hrows (by rw [hp, hs, hf]) (by rw [hp]; omega)
  obtain ⟨r1, r2, r3, r4, r5, r6⟩ := hR
  set L := runLoop jobId addresses.length (requestDelayOf rateLimit) oracle
    faults 0 addresses st0 with hL
  have hout : (processAddressesBatch jobId addresses rateLimit oracle faults
      st0).outcomes = L.outcomes := rfl
  have hpc : (processAddressesBatch jobId addresses rateLimit oracle faults
      st0).processedCount = L.processedCount := rfl
  have hsc : (processAddressesBatch jobId addresses rateLimit oracle faults
      st0).successCount = L.successCount := rfl
  have hfc : (processAddressesBatch jobId addresses rateLimit oracle faults
      st0).failedCount = L.failedCount := rfl
  have houtE : (processAddressesBatch jobId addresses rateLimit oracle faults
      st0).outcomes =
      expectedOutcomes oracle faults (requestDelayOf rateLimit) 0 addresses := by
    rw [hout, r3, ho]
    simp
  refine ⟨houtE, ?_, ?_, ?_, ?_⟩
  · rw [houtE, expectedOutcomes_length]
  · rw [hpc, r1, hp]
    simp
  · rw [hpc, hsc, hfc]
    exact r2
  · intro i hi hfault
    rw [houtE, expectedOutcomes_getD oracle faults (requestDelayOf rateLimit)
      addresses 0 i hi]
    have hA : addrSucceeds oracle faults (requestDelayOf rateLimit) i = false := by
      rcases hfault with h1 | ⟨h1, h2⟩ | ⟨h1, h2⟩
      · simp [addrSucceeds, h1]
      · simp [addrSucceeds, h1]
      · rcases h2 with h2 | h2
        · simp [addrSucceeds, h2]
        · simp [addrSucceeds, h2]
    simp only [Nat.zero_add, hA]
    simp

def c4Job : BatchJob :=
  { id := 1, name := "job", targetTokenAddress := none, rateLimit := 5,
    status := "pending", totalAddresses := 0, processedAddresses := 0,
    successfulLookups := 0, failedLookups := 0, createdAt := some 0,
    completedAt := none }

def c4Store : MemStorage := { batchJobs := [(1, c4Job)], addressResults := [] }

def c4Oracle : Nat → Nat → AttemptResult := fun _ _ => .httpResponse 200 "OK" 1

/-- Faults of the witness run: the processing write of the first address
throws, everything else is clean. -/
def c4Faults : Nat → AddrFaults := fun i =>
  if i = 0 then { onProcessingWrite := true } else noFaults

def c4St0 : RunState :=
  { store := (startProcessing 1 ["x", "y"] c4Store 0).1
    clock := (startProcessing 1 ["x", "y"] c4Store 0).2
    processedCount := 0, successCount := 0, failedCount := 0,
    trace := [], outcomes := [] }

theorem c4_failure_isolation_witness :
    (processAddressesBatch 1 ["x", "y"] 5 c4Oracle c4Faults
      c4St0).outcomes.getD 0 AddrOutcome.skipped = AddrOutcome.failure ∧
    (processAddressesBatch 1 ["x", "y"] 5 c4Oracle c4Faults
      c4St0).processedCount = 2 :=
  have hT := c4_failure_isolation 1 ["x", "y"] 5 c4Oracle c4Faults c4St0
    (by
      intro a ha
      exact startProcessing_rowsExist 1 ["x", "y"] c4Store 0 a ha)
    rfl rfl rfl rfl
  ⟨hT.2.2.2.2 0 (by decide) (Or.inl rfl), hT.2.2.1⟩

theorem addrSucceeds_noFaults (oracle : Nat → Nat → AttemptResult) (d i : Nat) :
    addrSucceeds oracle noFaultsAt d i = lookupOk (oracle i) d := by
  simp [addrSucceeds, noFaultsAt, noFaults]

/-- Fault-free iteration, row found: the exact events appended are the
processing write, the terminal write, the counter persist with the
updated counters, and, when more addresses follow, one pacing wait. -/
theorem processOne_noFaults_trace (jobId n d : Nat)
    (oracle : Nat → Nat → AttemptResult) (i : Nat) (addr : String)
    (st : RunState) (entry : AddressResult)
    (hfind : (MemStorage.getAddressResultsByBatchId st.store jobId).find?
      (fun r => r.address == addr) = some entry) :
    (processOne jobId n d oracle noFaultsAt i addr st).trace =
      st.trace ++
      ([Ev.resultWrite i processingUpd,
        Ev.resultWrite i (terminalUpd (oracle i) d),
        Ev.jobWrite (countersUpd (st.processedCount + 1)
          (st.successCount + if lookupOk (oracle i) d then 1 else 0)
          (st.failedCount + if lookupOk (oracle i) d then 0 else 1))] ++
        (if st.processedCount + 1 < n then [Ev.pace d] else [])) := by
  rcases hlo : (balanceLookup (oracle i) d).outcome with body | msg
  · have hok : lookupOk (oracle i) d = true := by simp [lookupOk, hlo]
    have hterm : terminalUpd (oracle i) d = successUpd body := by
      simp [terminalUpd, hlo]
    simp only [processOne, hfind, processEntry, noFaultsAt, noFaults,
      Bool.false_eq_true, if_false, hlo, writeResult, writeJob, hok, hterm]
    by_cases hlt : st.processedCount + 1 < n <;>
      simp [hlt, List.append_assoc]
  · have hok : lookupOk (oracle i) d = false := by simp [lookupOk, hlo]
    have hterm : terminalUpd (oracle i) d = failedUpd msg := by
      simp [terminalUpd, hlo]
    simp only [processOne, hfind, processEntry, noFaultsAt, noFaults,
      Bool.false_eq_true, if_false, hlo, writeResult, writeJob, hok, hterm]
    by_cases hlt : st.processedCount + 1 < n <;>
      simp [hlt, List.append_assoc]

/-- Fault-free loop, entered at index i = processed count, with every
remaining row present: the trace grows by exactly the expected per-address
event blocks. -/
theorem runLoop_trace_noFaults (jobId n d : Nat)
    (oracle : Nat → Nat → AttemptResult) :
    ∀ (l : List String) (i : Nat) (st : RunState),
      (∀ a ∈ l, RowsExist st.store jobId a) →
      st.processedCount = i →
      (runLoop jobId n d oracle noFaultsAt i l st).trace =
        st.trace ++ expectedEvents oracle d n i st.successCount
          st.failedCount l := by
  intro l
  induction l with
  | nil =>
      intro i st hrows hpi
      simp [runLoop, expectedEvents]
  | cons a rest ih =>
      intro i st hrows hpi
      obtain ⟨entry, hentry⟩ := find_entry_of_rowsExist st.store jobId a
        (hrows a (List.mem_cons_self a rest))
      have hP := processOne_found jobId n d oracle noFaultsAt i a st entry
        hentry
      obtain ⟨p1, p2, p3, p4, p5, p6, p7⟩ := hP
      have htr := processOne_noFaults_trace jobId n d oracle i a st entry
        hentry
      have hrows2 : ∀ a2 ∈ rest,
          RowsExist (processOne jobId n d oracle noFaultsAt i a st).store
            jobId a2 :=
        fun a2 ha2 => p7 a2 (hrows a2 (List.mem_cons_of_mem a ha2))
      have hpi2 : (processOne jobId n d oracle noFaultsAt i a st).processedCount
          = i + 1 := by rw [p1, hpi]
      have hIH := ih (i + 1) (processOne jobId n d oracle noFaultsAt i a st)
        hrows2 hpi2
      simp only [runLoop]
      rw [hIH, htr]
      rw [p2, p3, addrSucceeds_noFaults]
      simp only [expectedEvents, hpi]
      rw [List.append_assoc]

theorem expectedEvents_jobWrites (oracle : Nat → Nat → AttemptResult)
    (d n : Nat) :
    ∀ (l : List String) (i s f : Nat),
      ((expectedEvents oracle d n i s f l).filter isJobWrite).length =
        l.length := by
  intro l
  induction l with
  | nil => intro i s f; rfl
  | cons a rest ih =>
      intro i s f
      simp only [expectedEvents, List.filter_append, List.length_append]
      rw [ih]
      by_cases h : i + 1 < n <;> simp [h, isJobWrite] <;> omega

theorem expectedEvents_filter_pace (oracle : Nat → Nat → AttemptResult)
    (d n : Nat) :
    ∀ (l : List String) (i s f : Nat), i + l.length = n →
      (expectedEvents oracle d n i s f l).filter isPace =
        List.replicate (l.length - 1) (Ev.pace d) := by
  intro l
  induction l with
  | nil => intro i s f hn; rfl
  | cons a rest ih =>
      intro i s f hn
      simp only [expectedEvents, List.filter_append]
      cases rest with
      | nil =>
          have hlt : ¬ i + 1 < n := by
            simp only [List.length_cons, List.length_nil] at hn
            omega
          simp [hlt, isPace, expectedEvents]
      | cons b rest2 =>
          have hlt : i + 1 < n := by
            simp only [List.length_cons] at hn
            omega
          have hIH := ih (i + 1) (s + if lookupOk (oracle i) d then 1 else 0)
            (f + if lookupOk (oracle i) d then 0 else 1)
            (by simp only [List.length_cons] at hn ⊢; omega)
          simp only [hlt, if_true]
          simp [isPace, hIH, List.replicate_succ]

theorem paceTotal_append (x y : List Ev) :
    paceTotal (x ++ y) = paceTotal x + paceTotal y := by
  simp [paceTotal]

theorem paceTotal_expectedEvents (oracle : Nat → Nat → AttemptResult)
    (d n : Nat) :
    ∀ (l : List String) (i s f : Nat), i + l.length = n →
      paceTotal (expectedEvents oracle d n i s f l) = (l.length - 1) * d := by
  intro l
  induction l with
  | nil => intro i s f hn; simp [expectedEvents, paceTotal]
  | cons a rest ih =>
      intro i s f hn
      simp only [expectedEvents]
      rw [paceTotal_append, paceTotal_append]
      cases rest with
      | nil =>
          have hlt : ¬ i + 1 < n := by
            simp only [List.length_cons, List.length_nil] at hn
            omega
          simp [hlt, paceTotal, expectedEvents]
      | cons b rest2 =>
          have hlt : i + 1 < n := by
            simp only [List.length_cons] at hn
            omega
          have hIH := ih (i + 1) (s + if lookupOk (oracle i) d then 1 else 0)
            (f + if lookupOk (oracle i) d then 0 else 1)
            (by simp only [List.length_cons] at hn ⊢; omega)
          rw [hIH]
          have hp3 : paceTotal [Ev.resultWrite i processingUpd,
              Ev.resultWrite i (terminalUpd (oracle i) d),
              Ev.jobWrite (countersUpd (i + 1)
                (s + if lookupOk (oracle i) d then 1 else 0)
                (f + if lookupOk (oracle i) d then 0 else 1))] = 0 := by
            simp [paceTotal]
          rw [hp3]
          simp only [hlt, if_true]
          have hpp : paceTotal [Ev.pace d] = d := by simp [paceTotal]
          rw [hpp]
          simp only [List.length_cons, Nat.add_sub_cancel]
          ring

/-- C7: in a fault-free run of the process route the trace is exactly the
per-address blocks of expectedEvents followed by one completion write:
for each address, its processing write and terminal write are immediately
followed by a job-counter persist carrying that address (processed =
index + 1), all before any event of the next address - so counters hit
the store after every address and before the next one starts, with
exactly addresses.length + 1 job writes in total (one per address plus
the completion: no batching). -/
theorem c7_counters_persisted_before_next_address (jobId : Nat)
    (addresses : List String) (oracle : Nat → Nat → AttemptResult)
    (s : MemStorage) (clock : Nat) (job : BatchJob) (st2 : RunState)
    (hjob : MemStorage.getBatchJob s jobId = some job)
    (hrun : processRoute jobId addresses oracle noFaultsAt s clock = some st2) :
    (∃ sc fc c, st2.trace =
      expectedEvents oracle
        (requestDelayOf (if job.rateLimit == 0 then 5 else job.rateLimit))
        addresses.length 0 0 0 addresses ++
      [Ev.jobWrite (completedUpd addresses.length sc fc c)]) ∧
    (st2.trace.filter isJobWrite).length = addresses.length + 1 := by
  simp only [processRoute, hjob, Option.some.injEq] at hrun
  subst hrun
  set st0 : RunState :=
    { store := (startProcessing jobId addresses s clock).1
      clock := (startProcessing jobId addresses s clock).2
      processedCount := 0, successCount := 0, failedCount := 0,
      trace := [], outcomes := [] } with hst0
  set rl := if job.rateLimit == 0 then 5 else job.rateLimit with hrl
  have htr := runLoop_trace_noFaults jobId addresses.length
    (requestDelayOf rl) oracle addresses 0 st0
    (fun a ha => startProcessing_rowsExist jobId addresses s clock a ha) rfl
  have hR := runLoop_facts jobId addresses.length (requestDelayOf rl) oracle
    noFaultsAt addresses 0 st0
    (fun a ha => startProcessing_rowsExist jobId addresses s clock a ha)
    rfl (by simp)
  obtain ⟨r1, r2, r3, r4, r5, r6⟩ := hR
  set L := runLoop jobId addresses.length (requestDelayOf rl) oracle
    noFaultsAt 0 addresses st0 with hL
  have hfinal : (processAddressesBatch jobId addresses rl oracle noFaultsAt
      st0).trace = L.trace ++ [Ev.jobWrite (completedUpd L.processedCount
        L.successCount L.failedCount L.clock)] := rfl
  have hLp : L.processedCount = addresses.length := by
    rw [r1]; simp
  constructor
  · refine ⟨L.successCount, L.failedCount, L.clock, ?_⟩
    rw [hfinal, htr, hLp]
    simp
  · rw [hfinal, htr]
    simp only [List.filter_append, List.length_append]
    rw [expectedEvents_jobWrites]
    simp [isJobWrite]

def c7Job : BatchJob :=
  { id := 1, name := "job", targetTokenAddress := none, rateLimit := 5,
    status := "pending", totalAddresses := 0, processedAddresses := 0,
    successfulLookups := 0, failedLookups := 0, createdAt := some 0,
    completedAt := none }

def c7Store : MemStorage := { batchJobs := [(1, c7Job)], addressResults := [] }

def c7Oracle : Nat → Nat → AttemptResult := fun _ _ => .httpResponse 200 "OK" 4

def c7Run : RunState :=
  (processRoute 1 ["u", "v"] c7Oracle noFaultsAt c7Store 0).getD
    { store := { batchJobs := [], addressResults := [] }, clock := 0,
      processedCount := 0, successCount := 0, failedCount := 0,
      trace := [], outcomes := [] }

theorem c7_counters_persisted_before_next_address_witness :
    (∃ sc fc c, c7Run.trace =
      expectedEvents c7Oracle (requestDelayOf 5) 2 0 0 0 ["u", "v"] ++
      [Ev.jobWrite (completedUpd 2 sc fc c)]) ∧
    (c7Run.trace.filter isJobWrite).length = 3 :=
  c7_counters_persisted_before_next_address 1 ["u", "v"] c7Oracle c7Store 0
    c7Job c7Run rfl rfl

/-- The integer requestDelay is the ceiling of 1000 / rate: it is the
least d with rate * d at least 1000. -/
theorem requestDelayOf_ceil (R : Nat) (hR : 0 < R) :
    1000 ≤ R * requestDelayOf R ∧ R * requestDelayOf R < 1000 + R := by
  have h1 := Nat.div_add_mod (1000 + R - 1) R
  have h2 : (1000 + R - 1) % R < R := Nat.mod_lt _ hR
  unfold requestDelayOf
  set q := (1000 + R - 1) / R with hq
  set m := (1000 + R - 1) % R with hm
  set P := R * q with hP
  omega

/-- C8: in a fault-free run over N addresses at positive integer rate R,
the trace carries exactly N - 1 pacing waits, each of
requestDelayOf R = ceil(1000 / R) milliseconds (the first call is
exempt; each wait sits between the counter persist of one address and
the events of the next, by the block shape of expectedEvents proved for
the trace), so the total pacing delay is exactly - hence at least -
(N - 1) * ceil(1000 / R) ms. -/
theorem c8_rate_gate_pacing (jobId : Nat) (addresses : List String)
    (oracle : Nat → Nat → AttemptResult) (s : MemStorage) (clock : Nat)
    (job : BatchJob) (st2 : RunState)
    (hjob : MemStorage.getBatchJob s jobId = some job)
    (hR : 0 < job.rateLimit)
    (hrun : processRoute jobId addresses oracle noFaultsAt s clock = some st2) :
    st2.trace.filter isPace =
      List.replicate (addresses.length - 1)
        (Ev.pace (requestDelayOf job.rateLimit)) ∧
    paceTotal st2.trace =
      (addresses.length - 1) * requestDelayOf job.rateLimit ∧
    1000 ≤ job.rateLimit * requestDelayOf job.rateLimit ∧
    job.rateLimit * requestDelayOf job.rateLimit < 1000 + job.rateLimit := by
  have hne : (job.rateLimit == 0) = false := by
    simp
    omega
  simp only [processRoute, hjob, hne, Bool.false_eq_true, if_false,
    Option.some.injEq] at hrun
  subst hrun
  set st0 : RunState :=
    { store := (startProcessing jobId addresses s clock).1
      clock := (startProcessing jobId addresses s clock).2
      processedCount := 0, successCount := 0, failedCount := 0,
      trace := [], outcomes := [] } with hst0
  have htr := runLoop_trace_noFaults jobId addresses.length
    (requestDelayOf job.rateLimit) oracle addresses 0 st0
    (fun a ha => startProcessing_rowsExist jobId addresses s clock a ha) rfl
  set L := runLoop jobId addresses.length (requestDelayOf job.rateLimit)
    oracle noFaultsAt 0 addresses st0 with hL
  have hfinal : (processAddressesBatch jobId addresses job.rateLimit oracle
      noFaultsAt st0).trace = L.trace ++
      [Ev.jobWrite (completedUpd L.processedCount L.successCount
        L.failedCount L.clock)] := rfl
  refine ⟨?_, ?_, (requestDelayOf_ceil job.rateLimit hR).1,
    (requestDelayOf_ceil job.rateLimit hR).2⟩
  · rw [hfinal, htr]
    simp only [List.filter_append]
    rw [expectedEvents_filter_pace oracle (requestDelayOf job.rateLimit)
      addresses.length addresses 0 0 0 (by simp)]
    simp [isPace]
  · rw [hfinal, htr]
    rw [paceTotal_append, paceTotal_append]
    rw [paceTotal_expectedEvents oracle (requestDelayOf job.rateLimit)
      addresses.length addresses 0 0 0 (by simp)]
    simp [paceTotal]

def c8Job : BatchJob :=
  { id := 1, name := "job", targetTokenAddress := none, rateLimit := 3,
    status := "pending", totalAddresses := 0, processedAddresses := 0,
    successfulLookups := 0, failedLookups := 0, createdAt := some 0,
    completedAt := none }

def c8Store : MemStorage := { batchJobs := [(1, c8Job)], addressResults := [] }

def c8Oracle : Nat → Nat → AttemptResult := fun _ _ => .httpResponse 200 "OK" 5

def c8Run : RunState :=
  (processRoute 1 ["u", "v", "w"] c8Oracle noFaultsAt c8Store 0).getD
    { store := { batchJobs := [], addressResults := [] }, clock := 0,
      processedCount := 0, successCount := 0, failedCount := 0,
      trace := [], outcomes := [] }

theorem c8_rate_gate_pacing_witness :
    c8Run.trace.filter isPace = List.replicate 2 (Ev.pace (requestDelayOf 3)) ∧
    paceTotal c8Run.trace = 2 * requestDelayOf 3 ∧
    1000 ≤ 3 * requestDelayOf 3 ∧
    3 * requestDelayOf 3 < 1000 + 3 :=
  c8_rate_gate_pacing 1 ["u", "v", "w"] c8Oracle c8Store 0 c8Job c8Run
    rfl (by decide) rfl

theorem setAssoc_append_of_fresh {α : Type} (m : List (Nat × α)) (k : Nat)
    (v : α) (h : ∀ p ∈ m, p.1 ≠ k) : setAssoc m k v = m ++ [(k, v)] := by
  induction m with
  | nil => rfl
  | cons p rest ih =>
      have hp : p.1 ≠ k := h p (List.mem_cons_self p rest)
      simp only [setAssoc, beq_iff_eq, hp, if_false]
      rw [ih (fun q hq => h q (List.mem_cons_of_mem p hq))]
      simp

theorem buildPending_fst (jobId : Nat) :
    ∀ (l : List String) (c : Nat),
      (buildPending jobId c l).map Prod.fst = List.range' c l.length := by
  intro l
  induction l with
  | nil => intro c; rfl
  | cons a rest ih =>
      intro c
      simp [buildPending, List.range'_succ, ih]

theorem buildPending_snd_getD (jobId : Nat) :
    ∀ (l : List String) (c j : Nat), j < l.length →
      ((buildPending jobId c l).map Prod.snd).getD j dummyRow =
        pendingRow jobId (l.getD j "") (c + j) := by
  intro l
  induction l with
  | nil => intro c j hj; simp at hj
  | cons a rest ih =>
      intro c j hj
      cases j with
      | zero => simp [buildPending]
      | succ j2 =>
          simp only [buildPending, List.map_cons, List.getD_cons_succ]
          rw [ih (c + 1) j2 (by simpa using hj)]
          have : c + 1 + j2 = c + (j2 + 1) := by omega
          rw [this]

theorem buildPending_reassemble (jobId : Nat) :
    ∀ (l : List String) (c : Nat),
      ((buildPending jobId c l).map Prod.snd).map (fun r => (r.id, r)) =
        buildPending jobId c l := by
  intro l
  induction l with
  | nil => intro c; rfl
  | cons a rest ih =>
      intro c
      simp only [buildPending, List.map_cons, ih]
      rfl

theorem createPendingRows_eq (jobId : Nat) :
    ∀ (l : List String) (s : MemStorage) (c : Nat),
      (∀ p ∈ s.addressResults, p.1 < c) →
      (createPendingRows jobId l s c).1.addressResults =
        s.addressResults ++ buildPending jobId c l := by
  intro l
  induction l with
  | nil => intro s c hfresh; simp [createPendingRows, buildPending]
  | cons a rest ih =>
      intro s c hfresh
      simp only [createPendingRows]
      rw [ih _ (c + 1) ?_]
      · have hset : (MemStorage.createAddressResult s
            { batchJobId := jobId, address := a, status := some "pending",
              data := none, errorMessage := none } c c).2.addressResults =
            s.addressResults ++ [(c, pendingRow jobId a c)] := by
          simp only [MemStorage.createAddressResult]
          exact setAssoc_append_of_fresh _ _ _
            (fun p hp => Nat.ne_of_lt (hfresh p hp))
        rw [hset]
        simp [buildPending]
      · intro p hp
        simp only [MemStorage.createAddressResult] at hp
        rw [setAssoc_append_of_fresh _ _ _
          (fun q hq => Nat.ne_of_lt (hfresh q hq))] at hp
        rcases List.mem_append.mp hp with h1 | h2
        · exact Nat.lt_trans (hfresh p h1) (Nat.lt_succ_self c)
        · simp only [List.mem_singleton] at h2
          rw [h2]
          omega

/-- After initialization on a store with no result rows, the store has
exactly the pending-row shape at progress 0. -/
theorem startProcessing_shape (jobId : Nat) (addresses : List String)
    (oracle : Nat → Nat → AttemptResult) (d : Nat) (s : MemStorage)
    (clock : Nat) (hempty : s.addressResults = []) :
    StoreShape jobId addresses oracle d 0
      (startProcessing jobId addresses s clock).1 := by
  refine ⟨(buildPending jobId (clock + 1) addresses).map Prod.snd, ?_, ?_, ?_, ?_⟩
  · simp only [startProcessing]
    rw [createPendingRows_eq jobId addresses _ (clock + 1) ?_]
    · rw [buildPending_reassemble]
      rw [updateBatchJob_addressResults, hempty]
      simp
    · intro p hp
      rw [updateBatchJob_addressResults, hempty] at hp
      simp at hp
  · have := buildPending_fst jobId addresses (clock + 1)
    have hl : (buildPending jobId (clock + 1) addresses).length =
        addresses.length := by
      have h2 := congrArg List.length this
      simpa using h2
    simpa using hl
  · have hid : ((buildPending jobId (clock + 1) addresses).map Prod.snd).map
        (fun r => r.id) = List.range' (clock + 1) addresses.length := by
      rw [← buildPending_fst jobId addresses (clock + 1)]
      rw [← buildPending_reassemble jobId addresses (clock + 1)]
      simp
    rw [hid]
    exact List.nodup_range' _ _
  · intro j hj
    rw [buildPending_snd_getD jobId addresses (clock + 1) j hj]
    refine ⟨rfl, rfl, ?_⟩
    simp [pendingSpec, pendingRow]

theorem getD_set_self {α : Type} (d : α) :
    ∀ (l : List α) (k : Nat) (v : α), k < l.length →
      (l.set k v).getD k d = v := by
  intro l
  induction l with
  | nil => intro k v hk; simp at hk
  | cons x rest ih =>
      intro k v hk
      cases k with
      | zero => rfl
      | succ k2 =>
          simp only [List.set_cons_succ, List.getD_cons_succ]
          exact ih k2 v (by simpa using hk)

theorem getD_set_ne {α : Type} (d : α) :
    ∀ (l : List α) (k j : Nat) (v : α), j ≠ k →
      (l.set k v).getD j d = l.getD j d := by
  intro l
  induction l with
  | nil => intro k j v hne; simp
  | cons x rest ih =>
      intro k j v hne
      cases k with
      | zero =>
          cases j with
          | zero => exact absurd rfl hne
          | succ j2 => rfl
      | succ k2 =>
          cases j with
          | zero => rfl
          | succ j2 =>
              simp only [List.set_cons_succ, List.getD_cons_succ]
              exact ih k2 j2 v (by omega)

theorem getD_mem {α : Type} (d : α) :
    ∀ (l : List α) (j : Nat), j < l.length → l.getD j d ∈ l := by
  intro l
  induction l with
  | nil => intro j hj; simp at hj
  | cons x rest ih =>
      intro j hj
      cases j with
      | zero => simp
      | succ j2 =>
          simp only [List.getD_cons_succ]
          exact List.mem_cons_of_mem x (ih j2 (by simpa using hj))

theorem map_id_set (rows : List AddressResult) :
    ∀ (j : Nat) (r2 : AddressResult),
      r2.id = (rows.getD j dummyRow).id →
      (rows.set j r2).map (fun r => r.id) = rows.map (fun r => r.id) := by
  induction rows with
  | nil => intro j r2 _; rfl
  | cons x rest ih =>
      intro j r2 hid
      cases j with
      | zero =>
          simp only [List.getD_cons_zero] at hid
          simp [hid]
      | succ j2 =>
          simp only [List.getD_cons_succ] at hid
          simp only [List.set_cons_succ, List.map_cons]
          rw [ih j2 r2 hid]

theorem getAssoc_rowsMap :
    ∀ (rows : List AddressResult),
      (rows.map (fun r => r.id)).Nodup →
      ∀ (j : Nat), j < rows.length →
      getAssoc (rows.map (fun r => (r.id, r))) ((rows.getD j dummyRow).id) =
        some (rows.getD j dummyRow) := by
  intro rows
  induction rows with
  | nil => intro _ j hj; simp at hj
  | cons x rest ih =>
      intro hnd j hj
      simp only [List.map_cons, List.nodup_cons] at hnd
      cases j with
      | zero => simp [getAssoc_cons]
      | succ j2 =>
          have hj2 : j2 < rest.length := by simpa using hj
          have hmem : (rest.getD j2 dummyRow).id ∈ rest.map (fun r => r.id) :=
            List.mem_map.mpr ⟨rest.getD j2 dummyRow, getD_mem dummyRow rest j2 hj2, rfl⟩
          have hne : x.id ≠ (rest.getD j2 dummyRow).id := by
            intro he
            exact hnd.1 (he ▸ hmem)
          simp only [List.getD_cons_succ, List.map_cons]
          rw [getAssoc_cons]
          simp only [hne, if_false]
          exact ih hnd.2 j2 hj2

theorem setAssoc_rowsMap :
    ∀ (rows : List AddressResult),
      (rows.map (fun r => r.id)).Nodup →
      ∀ (j : Nat), j < rows.length →
      ∀ (r2 : AddressResult), r2.id = (rows.getD j dummyRow).id →
      setAssoc (rows.map (fun r => (r.id, r))) ((rows.getD j dummyRow).id) r2 =
        (rows.set j r2).map (fun r => (r.id, r)) := by
  intro rows
  induction rows with
  | nil => intro _ j hj; simp at hj
  | cons x rest ih =>
      intro hnd j hj r2 hid
      simp only [List.map_cons, List.nodup_cons] at hnd
      cases j with
      | zero =>
          simp only [List.getD_cons_zero] at hid
          simp only [List.getD_cons_zero, List.set_cons_zero, List.map_cons,
            setAssoc, beq_self_eq_true, if_true]
          rw [hid]
      | succ j2 =>
          have hj2 : j2 < rest.length := by simpa using hj
          have hmem : (rest.getD j2 dummyRow).id ∈ rest.map (fun r => r.id) :=
            List.mem_map.mpr ⟨rest.getD j2 dummyRow, getD_mem dummyRow rest j2 hj2, rfl⟩
          have hne : x.id ≠ (rest.getD j2 dummyRow).id := by
            intro he
            exact hnd.1 (he ▸ hmem)
          simp only [List.getD_cons_succ] at hid ⊢
          simp only [List.set_cons_succ, List.map_cons, setAssoc, beq_iff_eq,
            hne, if_false]
          rw [ih hnd.2 j2 hj2 r2 hid]

theorem map_snd_rowsMap (rows : List AddressResult) :
    (rows.map (fun r => (r.id, r))).map Prod.snd = rows := by
  simp [List.map_map]
  exact List.map_id rows

/-- Under the shape hypotheses over a duplicate-free address list, the
find of routes.ts line 200 locates exactly the k-th row. -/
theorem find_row_unique (jobId : Nat) (addresses : List String)
    (hnd : addresses.Nodup) (rows : List AddressResult) (s : MemStorage)
    (hsA : s.addressResults = rows.map (fun r => (r.id, r)))
    (hlen : rows.length = addresses.length)
    (hfields : ∀ j, j < addresses.length →
      (rows.getD j dummyRow).batchJobId = jobId ∧
      (rows.getD j dummyRow).address = addresses.getD j "")
    (k : Nat) (hk : k < addresses.length) :
    (MemStorage.getAddressResultsByBatchId s jobId).find?
      (fun r => r.address == addresses.getD k "") =
      some (rows.getD k dummyRow) := by
  have hfieldsGet : ∀ t : Fin rows.length,
      (rows.get t).batchJobId = jobId ∧
      (rows.get t).address = addresses.getD t.1 "" := by
    intro t
    have h := hfields t.1 (by rw [← hlen]; exact t.2)
    rw [List.getD_eq_getElem rows dummyRow t.2] at h
    simpa using h
  have hsnd : s.addressResults.map Prod.snd = rows := by
    rw [hsA]; exact map_snd_rowsMap rows
  have hfilter : (s.addressResults.map Prod.snd).filter
      (fun r => r.batchJobId == jobId) = rows := by
    rw [hsnd]
    apply List.filter_eq_self.mpr
    intro r hr
    obtain ⟨t, hrt⟩ := List.mem_iff_get.mp hr
    have := (hfieldsGet t).1
    rw [hrt] at this
    simp [this]
  have hkr : k < rows.length := by rw [hlen]; exact hk
  have hmemk : rows.getD k dummyRow ∈
      MemStorage.getAddressResultsByBatchId s jobId := by
    rw [MemStorage.getAddressResultsByBatchId, mem_sortByTime, hfilter]
    exact getD_mem dummyRow rows k hkr
  have hsome : ((MemStorage.getAddressResultsByBatchId s jobId).find?
      (fun r => r.address == addresses.getD k "")).isSome := by
    rw [List.find?_isSome]
    refine ⟨rows.getD k dummyRow, hmemk, ?_⟩
    simpa using (hfields k hk).2
  obtain ⟨e, he⟩ := Option.isSome_iff_exists.mp hsome
  have hpred := List.find?_some he
  have hemem := List.mem_of_find?_eq_some he
  rw [MemStorage.getAddressResultsByBatchId, mem_sortByTime, hfilter] at hemem
  obtain ⟨t, hrt⟩ := List.mem_iff_get.mp hemem
  have haddr : e.address = addresses.getD t.1 "" := by
    rw [← hrt]
    exact (hfieldsGet t).2
  have haddr2 : e.address = addresses.getD k "" := by
    simpa using hpred
  have htl : t.1 < addresses.length := by rw [← hlen]; exact t.2
  have heq : t.1 = k := by
    have h1 : addresses.getD t.1 "" = addresses.getD k "" := by
      rw [← haddr, haddr2]
    rw [List.getD_eq_getElem addresses "" htl,
      List.getD_eq_getElem addresses "" hk] at h1
    have h2 : addresses.get ⟨t.1, htl⟩ = addresses.get ⟨k, hk⟩ := by
      simpa using h1
    have := (List.Nodup.get_inj_iff hnd).mp h2
    simpa using congrArg Fin.val this
  rw [he]
  congr 1
  rw [← hrt]
  rw [List.getD_eq_getElem rows dummyRow hkr]
  have : (⟨k, hkr⟩ : Fin rows.length) = t := by
    apply Fin.ext
    simp [heq]
  rw [← this]
  simp

/-- One fault-free iteration over a duplicate-free list advances the
store shape by one: only the k-th row changes, from pending through
processing to its terminal value. -/
theorem processOne_shape (jobId n d : Nat) (oracle : Nat → Nat → AttemptResult)
    (addresses : List String) (hnd : addresses.Nodup) (k : Nat)
    (hk : k < addresses.length) (st : RunState)
    (hshape : StoreShape jobId addresses oracle d k st.store) :
    StoreShape jobId addresses oracle d (k + 1)
      (processOne jobId n d oracle noFaultsAt k (addresses.getD k "") st).store := by
  obtain ⟨rows, hsA, hlen, hids, hspec⟩ := hshape
  have hkr : k < rows.length := by rw [hlen]; exact hk
  have hfind := find_row_unique jobId addresses hnd rows st.store hsA hlen
    (fun j hj => ⟨(hspec j hj).1, (hspec j hj).2.1⟩) k hk
  have hpend : pendingSpec (rows.getD k dummyRow) := by
    have := (hspec k hk).2.2
    simpa using this
  -- the row after the processing write
  set r1 := applyResultUpdate (rows.getD k dummyRow) processingUpd st.clock
    with hr1
  have hid1 : r1.id = (rows.getD k dummyRow).id := by
    simp [hr1, applyResultUpdate, processingUpd]
  have hstore1 : (MemStorage.updateAddressResult st.store
      (rows.getD k dummyRow).id processingUpd st.clock).2.addressResults =
      (rows.set k r1).map (fun r => (r.id, r)) := by
    have hget : getAssoc st.store.addressResults (rows.getD k dummyRow).id =
        some (rows.getD k dummyRow) := by
      rw [hsA]; exact getAssoc_rowsMap rows hids k hkr
    simp only [MemStorage.updateAddressResult, hget]
    rw [hsA]
    exact setAssoc_rowsMap rows hids k hkr r1 hid1
  set rows1 := rows.set k r1 with hrows1
  have hlen1 : rows1.length = rows.length := by simp [hrows1]
  have hids1 : (rows1.map (fun r => r.id)).Nodup := by
    rw [hrows1, map_id_set rows k r1 hid1]
    exact hids
  have hget1k : rows1.getD k dummyRow = r1 := by
    rw [hrows1]; exact getD_set_self dummyRow rows k r1 hkr
  have hkr1 : k < rows1.length := by rw [hlen1]; exact hkr
  -- the terminal write over any store holding the intermediate rows
  have hterm : ∀ (s1 : MemStorage),
      s1.addressResults = rows1.map (fun r => (r.id, r)) →
      ∀ (u : ResultUpdate) (t2 : Nat), u.id = none →
      (MemStorage.updateAddressResult s1 r1.id u t2).2.addressResults =
        (rows1.set k (applyResultUpdate r1 u t2)).map (fun r => (r.id, r)) := by
    intro s1 hs1 u t2 hu
    have hget : getAssoc s1.addressResults r1.id = some r1 := by
      rw [hs1]
      have := getAssoc_rowsMap rows1 hids1 k hkr1
      rw [hget1k] at this
      exact this
    simp only [MemStorage.updateAddressResult, hget]
    rw [hs1]
    have := setAssoc_rowsMap rows1 hids1 k hkr1 (applyResultUpdate r1 u t2)
      (by rw [hget1k]; simp [applyResultUpdate, hu])
    rw [hget1k] at this
    exact this
  -- shape conclusion for a given final row value
  have hdone : ∀ (r2 : AddressResult),
      r2.id = (rows.getD k dummyRow).id →
      r2.batchJobId = (rows.getD k dummyRow).batchJobId →
      r2.address = (rows.getD k dummyRow).address →
      terminalSpec (oracle k) d r2 →
      ∀ (s2 : MemStorage), s2.addressResults =
        (rows1.set k r2).map (fun r => (r.id, r)) →
      StoreShape jobId addresses oracle d (k + 1) s2 := by
    intro r2 hid2 hjob2 haddr2 hterm2 s2 hs2
    have hcollapse : rows1.set k r2 = rows.set k r2 := by
      rw [hrows1]
      exact List.set_set r1 r2 rows k
    refine ⟨rows.set k r2, ?_, ?_, ?_, ?_⟩
    · rw [hs2, hcollapse]
    · simp [hlen]
    · rw [map_id_set rows k r2 hid2]
      exact hids
    · intro j hj
      by_cases hjk : j = k
      · subst hjk
        rw [getD_set_self dummyRow rows j r2 hkr]
        refine ⟨?_, ?_, ?_⟩
        · rw [hjob2]; exact (hspec j hj).1
        · rw [haddr2]; exact (hspec j hj).2.1
        · have hj1 : j < j + 1 := Nat.lt_succ_self j
          simp only [hj1, if_true]
          exact hterm2
      · rw [getD_set_ne dummyRow rows k j r2 hjk]
        refine ⟨(hspec j hj).1, (hspec j hj).2.1, ?_⟩
        have hs := (hspec j hj).2.2
        by_cases hlt : j < k
        · have hlt2 : j < k + 1 := by omega
          simp only [hlt, if_true] at hs
          simp only [hlt2, if_true]
          exact hs
        · have hlt2 : ¬ j < k + 1 := by omega
          simp only [hlt, if_false] at hs
          simp only [hlt2, if_false]
          exact hs
  rcases hlo : (balanceLookup (oracle k) d).outcome with body | msg
  · -- successful lookup
    simp only [processOne, hfind, processEntry, noFaultsAt, noFaults,
      Bool.false_eq_true, if_false, hlo, writeResult, writeJob]
    have hsfinal := hterm (MemStorage.updateAddressResult st.store
        (rows.getD k dummyRow).id processingUpd st.clock).2 hstore1
      (successUpd body) (st.clock + 1) rfl
    rw [hid1] at hsfinal
    by_cases hlt : st.processedCount + 1 < n <;>
      simp only [hlt, if_true, if_false] <;>
      (refine hdone (applyResultUpdate r1 (successUpd body) (st.clock + 1))
        ?_ ?_ ?_ ?_ _ ?_
       · simp [applyResultUpdate, successUpd, hid1]
       · simp [hr1, applyResultUpdate, successUpd, processingUpd]
       · simp [hr1, applyResultUpdate, successUpd, processingUpd]
       · simp only [terminalSpec, hlo]
         refine ⟨?_, ?_, ?_⟩ <;>
           simp [applyResultUpdate, successUpd]
       · rw [updateBatchJob_addressResults]
         exact hsfinal)
  · -- failed lookup: the failure update leaves data, which is none here
    simp only [processOne, hfind, processEntry, noFaultsAt, noFaults,
      Bool.false_eq_true, if_false, hlo, writeResult, writeJob]
    have hsfinal := hterm (MemStorage.updateAddressResult st.store
        (rows.getD k dummyRow).id processingUpd st.clock).2 hstore1
      (failedUpd msg) (st.clock + 1) rfl
    rw [hid1] at hsfinal
    have hdata : r1.data = none := by
      simp only [hr1, applyResultUpdate, processingUpd]
      simpa using hpend.2.1
    by_cases hlt : st.processedCount + 1 < n <;>
      simp only [hlt, if_true, if_false] <;>
      (refine hdone (applyResultUpdate r1 (failedUpd msg) (st.clock + 1))
        ?_ ?_ ?_ ?_ _ ?_
       · simp [applyResultUpdate, failedUpd, hid1]
       · simp [hr1, applyResultUpdate, failedUpd, processingUpd]
       · simp [hr1, applyResultUpdate, failedUpd, processingUpd]
       · simp only [terminalSpec, hlo]
         refine ⟨?_, ?_, ?_⟩ <;>
           simp [applyResultUpdate, failedUpd, hdata]
       · rw [updateBatchJob_addressResults]
         exact hsfinal)

/-- The fault-free loop over a consecutive slice of a duplicate-free
address list advances the store shape by the slice length. -/
theorem runLoop_shape (jobId n d : Nat) (oracle : Nat → Nat → AttemptResult)
    (addresses : List String) (hnd : addresses.Nodup) :
    ∀ (l : List String) (k : Nat) (st : RunState),
      (∀ t, t < l.length → l.getD t "" = addresses.getD (k + t) "") →
      k + l.length ≤ addresses.length →
      StoreShape jobId addresses oracle d k st.store →
      StoreShape jobId addresses oracle d (k + l.length)
        (runLoop jobId n d oracle noFaultsAt k l st).store := by
  intro l
  induction l with
  | nil =>
      intro k st _ _ hshape
      simpa [runLoop] using hshape
  | cons a rest ih =>
      intro k st hsub hbound hshape
      have hk : k < addresses.length := by
        simp only [List.length_cons] at hbound
        omega
      have ha : a = addresses.getD k "" := by
        have := hsub 0 (by simp)
        simpa using this
      have hstep := processOne_shape jobId n d oracle addresses hnd k hk st
        hshape
      rw [← ha] at hstep
      have hIH := ih (k + 1) (processOne jobId n d oracle noFaultsAt k a st)
        (fun t ht => by
          have := hsub (t + 1) (by simpa using ht)
          simpa [Nat.add_assoc, Nat.add_comm 1 t] using this)
        (by simp only [List.length_cons] at hbound; omega)
        hstep
      simp only [runLoop]
      have harith : k + (rest.length + 1) = k + 1 + rest.length := by omega
      simp only [List.length_cons, harith]
      exact hIH

theorem rows_filter_count (jobId : Nat) :
    ∀ (rows : List AddressResult) (addrs : List String),
      rows.length = addrs.length →
      (∀ j, j < addrs.length →
        (rows.getD j dummyRow).batchJobId = jobId ∧
        (rows.getD j dummyRow).address = addrs.getD j "") →
      ∀ a, (rows.filter
        (fun r => r.batchJobId == jobId && r.address == a)).length =
        addrs.count a := by
  intro rows
  induction rows with
  | nil =>
      intro addrs hlen _ a
      cases addrs with
      | nil => simp
      | cons b rest => simp at hlen
  | cons r0 rrest ih =>
      intro addrs hlen hfields a
      cases addrs with
      | nil => simp at hlen
      | cons a0 arest =>
          have hhead := hfields 0 (by simp)
          simp only [List.getD_cons_zero] at hhead
          have htail := fun j hj => by
            have := hfields (j + 1) (by simpa using hj)
            simpa only [List.getD_cons_succ] using this
          have hlen2 : rrest.length = arest.length := by simpa using hlen
          have hIH := ih arest hlen2 htail a
          by_cases ha : a0 = a
          · subst ha
            simp [List.filter_cons, List.count_cons, hhead.1, hhead.2, hIH]
          · have : (r0.address == a) = false := by
              simp [hhead.2]
              exact ha
            simp [List.filter_cons, List.count_cons, hhead.1, this, hIH,
              Ne.symm ha]

theorem shape_fieldsOk (jobId : Nat) (addresses : List String)
    (oracle : Nat → Nat → AttemptResult) (d k : Nat) (s : MemStorage)
    (hshape : StoreShape jobId addresses oracle d k s) :
    ∀ r ∈ s.addressResults.map Prod.snd, resultFieldsOk r := by
  obtain ⟨rows, hsA, hlen, _, hspec⟩ := hshape
  intro r hr
  rw [hsA, map_snd_rowsMap] at hr
  obtain ⟨t, hrt⟩ := List.mem_iff_get.mp hr
  have htl : t.1 < addresses.length := by rw [← hlen]; exact t.2
  have hsp := (hspec t.1 htl).2.2
  rw [List.getD_eq_getElem rows dummyRow t.2] at hsp
  simp only [Fin.eta, List.get_eq_getElem] at hsp hrt
  rw [hrt] at hsp
  by_cases hlt : t.1 < k
  · simp only [hlt, if_true, terminalSpec] at hsp
    rcases hlo : (balanceLookup (oracle t.1) d).outcome with body | msg <;>
      rw [hlo] at hsp
    · refine ⟨?_, ?_⟩ <;> simp [hsp.1, hsp.2.1, hsp.2.2]
    · refine ⟨?_, ?_⟩ <;> simp [hsp.1, hsp.2.1, hsp.2.2]
  · simp only [hlt, if_false, pendingSpec] at hsp
    refine ⟨?_, ?_⟩ <;> simp [hsp.1, hsp.2.1, hsp.2.2]

theorem terminalUpd_status (attempt : Nat → AttemptResult) (d : Nat) :
    (terminalUpd attempt d).status = some "success" ∨
    (terminalUpd attempt d).status = some "failed" := by
  rcases hlo : (balanceLookup attempt d).outcome with body | msg <;>
    simp [terminalUpd, hlo, successUpd, failedUpd]

theorem expectedEvents_terminalWrites (oracle : Nat → Nat → AttemptResult)
    (d n : Nat) :
    ∀ (l : List String) (i s f j : Nat),
      ((expectedEvents oracle d n i s f l).filter (isTerminalWrite j)).length =
        if i ≤ j ∧ j < i + l.length then 1 else 0 := by
  intro l
  induction l with
  | nil =>
      intro i s f j
      simp only [expectedEvents, List.filter_nil, List.length_nil]
      rw [if_neg (by omega)]
  | cons a rest ih =>
      intro i s f j
      have hIH := ih (i + 1) (s + if lookupOk (oracle i) d then 1 else 0)
        (f + if lookupOk (oracle i) d then 0 else 1) j
      have hproc : isTerminalWrite j (Ev.resultWrite i processingUpd) = false := by
        simp [isTerminalWrite, processingUpd]
      have hjw : ∀ u, isTerminalWrite j (Ev.jobWrite u) = false := fun u => rfl
      have hpace : isTerminalWrite j (Ev.pace d) = false := rfl
      have hterm : isTerminalWrite j
          (Ev.resultWrite i (terminalUpd (oracle i) d)) =
          (i == j) := by
        rcases terminalUpd_status (oracle i) d with h | h <;>
          simp [isTerminalWrite, h]
      simp only [expectedEvents, List.filter_append, List.length_append, hIH]
      by_cases hij : i = j
      · subst hij
        simp only [List.filter_cons, hproc, hterm, hjw, beq_self_eq_true,
          if_true, if_false]
        by_cases hlt : i + 1 < n <;>
          simp [hlt, hpace, isTerminalWrite]
      · have hne : (i == j) = false := by simp [hij]
        simp only [List.filter_cons, hproc, hterm, hjw, hne, if_false]
        by_cases hlt : i + 1 < n <;>
          simp [hlt, hpace, isTerminalWrite] <;>
          (by_cases hcond : i + 1 ≤ j ∧ j < i + 1 + rest.length
           · rw [if_pos hcond, if_pos (by omega)]
           · rw [if_neg hcond, if_neg (by omega)])


/-- C9 (amended): restricted to duplicate-free address lists (a repeated
address yields one row per occurrence, refuting the per-pair claim),
initialization creates exactly one AddressResult row per (job, address)
pair, all pending; after a fault-free run each pair still has exactly one
row, now in a terminal status, and the trace holds exactly one
terminal-status result write per address. -/
theorem c9_one_row_per_pair_amended (jobId rateLimit : Nat)
    (addresses : List String) (oracle : Nat → Nat → AttemptResult)
    (s : MemStorage) (clock : Nat)
    (hnd : addresses.Nodup) (hempty : s.addressResults = []) :
    (∀ a ∈ addresses,
      (rowsFor (startProcessing jobId addresses s clock).1 jobId a).length
        = 1) ∧
    (∀ r ∈ (startProcessing jobId addresses s clock).1.addressResults.map
        Prod.snd, r.status = "pending") ∧
    (∀ a ∈ addresses, ∃ r,
      rowsFor (processAddressesBatch jobId addresses rateLimit oracle
        noFaultsAt
        { store := (startProcessing jobId addresses s clock).1
          clock := (startProcessing jobId addresses s clock).2
          processedCount := 0, successCount := 0, failedCount := 0,
          trace := [], outcomes := [] }).store jobId a = [r] ∧
      (r.status = "success" ∨ r.status = "failed")) ∧
    (∀ j, j < addresses.length →
      ((processAddressesBatch jobId addresses rateLimit oracle noFaultsAt
        { store := (startProcessing jobId addresses s clock).1
          clock := (startProcessing jobId addresses s clock).2
          processedCount := 0, successCount := 0, failedCount := 0,
          trace := [], outcomes := [] }).trace.filter
        (isTerminalWrite j)).length = 1) := by
  have hinit := startProcessing_shape jobId addresses oracle
    (requestDelayOf rateLimit) s clock hempty
  set st0 : RunState :=
    { store := (startProcessing jobId addresses s clock).1
      clock := (startProcessing jobId addresses s clock).2
      processedCount := 0, successCount := 0, failedCount := 0,
      trace := [], outcomes := [] } with hst0
  have hshapeF := runLoop_shape jobId addresses.length
    (requestDelayOf rateLimit) oracle addresses hnd addresses 0 st0
    (fun t ht => by simp) (by simp) hinit
  simp only [Nat.zero_add] at hshapeF
  set L := runLoop jobId addresses.length (requestDelayOf rateLimit) oracle
    noFaultsAt 0 addresses st0 with hL
  have hfinalA : (processAddressesBatch jobId addresses rateLimit oracle
      noFaultsAt st0).store.addressResults = L.store.addressResults :=
    updateBatchJob_addressResults _ _ _
  refine ⟨?_, ?_, ?_, ?_⟩
  · -- exactly one row per pair at initialization
    obtain ⟨rows0, h0A, h0len, _, h0spec⟩ := hinit
    intro a ha
    have hcount := rows_filter_count jobId rows0 addresses h0len
      (fun j hj => ⟨(h0spec j hj).1, (h0spec j hj).2.1⟩) a
    have : rowsFor (startProcessing jobId addresses s clock).1 jobId a =
        rows0.filter (fun r => r.batchJobId == jobId && r.address == a) := by
      simp only [rowsFor, h0A, map_snd_rowsMap]
    rw [this, hcount]
    exact List.count_eq_one_of_mem hnd ha
  · -- all rows pending at initialization
    obtain ⟨rows0, h0A, h0len, _, h0spec⟩ := hinit
    intro r hr
    rw [h0A, map_snd_rowsMap] at hr
    obtain ⟨t, hrt⟩ := List.mem_iff_get.mp hr
    have htl : t.1 < addresses.length := by rw [← h0len]; exact t.2
    have hsp := (h0spec t.1 htl).2.2
    rw [List.getD_eq_getElem rows0 dummyRow t.2] at hsp
    simp only [Nat.not_lt_zero, if_false] at hsp
    simp only [Fin.eta, List.get_eq_getElem] at hrt
    rw [hrt] at hsp
    exact hsp.1
  · -- exactly one row per pair at the end, now terminal
    obtain ⟨rowsF, hFA, hFlen, _, hFspec⟩ := hshapeF
    intro a ha
    have hcount := rows_filter_count jobId rowsF addresses hFlen
      (fun j hj => ⟨(hFspec j hj).1, (hFspec j hj).2.1⟩) a
    have heq : rowsFor (processAddressesBatch jobId addresses rateLimit
        oracle noFaultsAt st0).store jobId a =
        rowsF.filter (fun r => r.batchJobId == jobId && r.address == a) := by
      simp only [rowsFor, hfinalA, hFA, map_snd_rowsMap]
    have hone : (rowsFor (processAddressesBatch jobId addresses rateLimit
        oracle noFaultsAt st0).store jobId a).length = 1 := by
      rw [heq, hcount]
      exact List.count_eq_one_of_mem hnd ha
    obtain ⟨r, hr⟩ := List.length_eq_one.mp hone
    refine ⟨r, hr, ?_⟩
    have hrmem : r ∈ rowsF := by
      have : r ∈ rowsFor (processAddressesBatch jobId addresses rateLimit
          oracle noFaultsAt st0).store jobId a := by
        rw [hr]; exact List.mem_singleton_self r
      rw [heq] at this
      exact List.mem_of_mem_filter this
    obtain ⟨t, hrt⟩ := List.mem_iff_get.mp hrmem
    have htl : t.1 < addresses.length := by rw [← hFlen]; exact t.2
    have hsp := (hFspec t.1 htl).2.2
    rw [List.getD_eq_getElem rowsF dummyRow t.2] at hsp
    simp only [htl, if_true] at hsp
    simp only [Fin.eta, List.get_eq_getElem] at hrt
    rw [hrt] at hsp
    simp only [terminalSpec] at hsp
    rcases hlo : (balanceLookup (oracle t.1) (requestDelayOf rateLimit)).outcome
      with body | msg <;> rw [hlo] at hsp
    · exact Or.inl hsp.1
    · exact Or.inr hsp.1
  · -- exactly one terminal result write per address in the trace
    intro j hj
    have htr := runLoop_trace_noFaults jobId addresses.length
      (requestDelayOf rateLimit) oracle addresses 0 st0
      (fun a ha => startProcessing_rowsExist jobId addresses s clock a ha) rfl
    have hfinalT : (processAddressesBatch jobId addresses rateLimit oracle
        noFaultsAt st0).trace = L.trace ++
        [Ev.jobWrite (completedUpd L.processedCount L.successCount
          L.failedCount L.clock)] := rfl
    rw [hfinalT, htr]
    simp only [List.filter_append, List.length_append]
    rw [expectedEvents_terminalWrites]
    rw [if_pos (by omega)]
    simp [isTerminalWrite]

def c9WJob : BatchJob :=
  { id := 1, name := "job", targetTokenAddress := none, rateLimit := 5,
    status := "pending", totalAddresses := 0, processedAddresses := 0,
    successfulLookups := 0, failedLookups := 0, createdAt := some 0,
    completedAt := none }

def c9WStore : MemStorage := { batchJobs := [(1, c9WJob)], addressResults := [] }

def c9WOracle : Nat → Nat → AttemptResult := fun _ _ =>
  .httpResponse 200 "OK" 6

theorem c9_one_row_per_pair_amended_witness :
    (∀ a ∈ (["m", "n"] : List String),
      (rowsFor (startProcessing 1 ["m", "n"] c9WStore 0).1 1 a).length = 1) ∧
    (∀ r ∈ (startProcessing 1 ["m", "n"] c9WStore 0).1.addressResults.map
        Prod.snd, r.status = "pending") ∧
    (∀ a ∈ (["m", "n"] : List String), ∃ r,
      rowsFor (processAddressesBatch 1 ["m", "n"] 5 c9WOracle noFaultsAt
        { store := (startProcessing 1 ["m", "n"] c9WStore 0).1
          clock := (startProcessing 1 ["m", "n"] c9WStore 0).2
          processedCount := 0, successCount := 0, failedCount := 0,
          trace := [], outcomes := [] }).store 1 a = [r] ∧
      (r.status = "success" ∨ r.status = "failed")) ∧
    (∀ j, j < (["m", "n"] : List String).length →
      ((processAddressesBatch 1 ["m", "n"] 5 c9WOracle noFaultsAt
        { store := (startProcessing 1 ["m", "n"] c9WStore 0).1
          clock := (startProcessing 1 ["m", "n"] c9WStore 0).2
          processedCount := 0, successCount := 0, failedCount := 0,
          trace := [], outcomes := [] }).trace.filter
        (isTerminalWrite j)).length = 1) :=
  c9_one_row_per_pair_amended 1 5 ["m", "n"] c9WOracle c9WStore 0
    (by decide) rfl

theorem goodRow_resultFieldsOk (r : AddressResult) (h : goodRow r) :
    resultFieldsOk r := by
  rcases h with ⟨h1, h2, h3, h4⟩ | ⟨h1, h2, h3⟩ | ⟨h1, h2, h3⟩
  · constructor
    · rw [h1]; simp [h3]
    · rw [h2]; simp [h4]
  · constructor
    · rw [h1, h2]; simp
    · rw [h1, h3]; simp
  · constructor
    · rw [h1, h2]; simp
    · rw [h1, h3]; simp

theorem resultLe_refl (x : AddressResult) : MemStorage.resultLe x x = true := by
  simp [MemStorage.resultLe, Nat.ble_eq]

theorem resultLe_of_not (x y : AddressResult)
    (h : ¬ MemStorage.resultLe x y = true) : MemStorage.resultLe y x = true := by
  simp only [MemStorage.resultLe, Nat.ble_eq] at h ⊢
  omega

theorem resultLe_trans (x y z : AddressResult)
    (h1 : MemStorage.resultLe x y = true)
    (h2 : MemStorage.resultLe y z = true) : MemStorage.resultLe x z = true := by
  simp only [MemStorage.resultLe, Nat.ble_eq] at h1 h2 ⊢
  omega

theorem resultLe_le (x y : AddressResult)
    (h : MemStorage.resultLe x y = true) :
    x.processedAt.getD 0 ≤ y.processedAt.getD 0 := by
  simpa [MemStorage.resultLe, Nat.ble_eq] using h

theorem pairwise_insertByTime (r : AddressResult) (l : List AddressResult)
    (h : l.Pairwise (fun x y => MemStorage.resultLe x y = true)) :
    (MemStorage.insertByTime r l).Pairwise
      (fun x y => MemStorage.resultLe x y = true) := by
  induction l with
  | nil => simp [MemStorage.insertByTime]
  | cons x xs ih =>
      rcases List.pairwise_cons.mp h with ⟨hx, hxs⟩
      by_cases hc : MemStorage.resultLe x r = true
      · simp only [MemStorage.insertByTime, hc, if_true]
        rw [List.pairwise_cons]
        refine ⟨?_, ih hxs⟩
        intro y hy
        rcases (mem_insertByTime r y xs).mp hy with he | hm
        · rw [he]; exact hc
        · exact hx y hm
      · simp only [MemStorage.insertByTime, hc, Bool.false_eq_true, if_false]
        rw [List.pairwise_cons]
        have hrx : MemStorage.resultLe r x = true := resultLe_of_not x r hc
        refine ⟨?_, h⟩
        intro y hy
        rcases List.mem_cons.mp hy with he | hm
        · rw [he]; exact hrx
        · exact resultLe_trans r x y hrx (hx y hm)

theorem pairwise_sortByTime (l : List AddressResult) :
    (MemStorage.sortByTime l).Pairwise
      (fun x y => MemStorage.resultLe x y = true) := by
  induction l with
  | nil => simp [MemStorage.sortByTime]
  | cons x xs ih => exact pairwise_insertByTime x _ ih

theorem find_min_of_pairwise (p : AddressResult → Bool) :
    ∀ (l : List AddressResult),
      l.Pairwise (fun x y => MemStorage.resultLe x y = true) →
      ∀ e, l.find? p = some e →
      ∀ x ∈ l, p x = true → MemStorage.resultLe e x = true := by
  intro l
  induction l with
  | nil => intro _ e he; simp at he
  | cons y ys ih =>
      intro h e he x hx hpx
      rcases List.pairwise_cons.mp h with ⟨hy, hys⟩
      by_cases hpy : p y = true
      · rw [List.find?_cons_of_pos _ hpy] at he
        have hye : y = e := Option.some.inj he
        subst hye
        rcases List.mem_cons.mp hx with he2 | hm
        · rw [he2]; exact resultLe_refl y
        · exact hy x hm
      · rw [List.find?_cons_of_neg _ (by simp [hpy])] at he
        rcases List.mem_cons.mp hx with he2 | hm
        · exact absurd (he2 ▸ hpx) (by simp [hpy])
        · exact ih hys e he x hm hpx

theorem getAssoc_of_mem_keyNodup (m : List (Nat × AddressResult))
    (hkeys : ∀ p ∈ m, p.1 = p.2.id) (hnod : (m.map Prod.fst).Nodup)
    (e : AddressResult) (he : e ∈ m.map Prod.snd) :
    getAssoc m e.id = some e := by
  induction m with
  | nil => simp at he
  | cons q rest ih =>
      simp only [List.map_cons, List.nodup_cons] at hnod
      simp only [List.map_cons, List.mem_cons] at he
      rcases he with he | hm
      · have hq : q.1 = e.id := by
          rw [hkeys q (List.mem_cons_self q rest), he]
        rw [getAssoc_cons, if_pos hq, he]
      · have hkey : e.id ∈ rest.map Prod.fst := by
          obtain ⟨p2, hp2, hpe⟩ := List.mem_map.mp hm
          exact List.mem_map.mpr ⟨p2, hp2,
            by rw [hkeys p2 (List.mem_cons_of_mem q hp2), hpe]⟩
        have hne : q.1 ≠ e.id := fun hcon => hnod.1 (hcon ▸ hkey)
        rw [getAssoc_cons, if_neg hne]
        exact ih (fun p hp => hkeys p (List.mem_cons_of_mem q hp)) hnod.2 hm

theorem updateAddressResult_decomp (s : MemStorage) (id now : Nat)
    (u : ResultUpdate) (r0 : AddressResult)
    (hget : getAssoc s.addressResults id = some r0)
    (hkeys : ∀ p ∈ s.addressResults, p.1 = p.2.id) (hu : u.id = none) :
    ∃ A B, s.addressResults.map Prod.snd = A ++ r0 :: B ∧
      (MemStorage.updateAddressResult s id u now).2.addressResults.map
        Prod.snd = A ++ applyResultUpdate r0 u now :: B ∧
      (∀ p ∈ (MemStorage.updateAddressResult s id u now).2.addressResults,
        p.1 = p.2.id) ∧
      (MemStorage.updateAddressResult s id u now).2.addressResults.map
        Prod.fst = s.addressResults.map Prod.fst ∧
      (MemStorage.updateAddressResult s id u now).2.batchJobs = s.batchJobs := by
  obtain ⟨l1, l2, hm, hs⟩ := setAssoc_split s.addressResults id
    (applyResultUpdate r0 u now) r0 hget
  have hidr0 : id = r0.id := by
    have : (id, r0) ∈ s.addressResults := by
      rw [hm]
      exact List.mem_append.mpr (Or.inr (List.mem_cons_self _ _))
    exact hkeys _ this
  have hvid : (applyResultUpdate r0 u now).id = r0.id := by
    simp [applyResultUpdate, hu]
  refine ⟨l1.map Prod.snd, l2.map Prod.snd, ?_, ?_, ?_, ?_, ?_⟩
  · rw [hm]; simp
  · simp only [MemStorage.updateAddressResult, hget, hs]
    simp
  · intro p hp
    simp only [MemStorage.updateAddressResult, hget, hs] at hp
    rcases List.mem_append.mp hp with h1 | h2
    · exact hkeys p (by rw [hm]; exact List.mem_append.mpr (Or.inl h1))
    · rcases List.mem_cons.mp h2 with he | h3
      · rw [he]
        simp [hvid, hidr0]
      · exact hkeys p
          (by rw [hm]
              exact List.mem_append.mpr (Or.inr (List.mem_cons_of_mem _ h3)))
  · simp only [MemStorage.updateAddressResult, hget, hs]
    rw [hm]
    simp
  · simp only [MemStorage.updateAddressResult, hget]

theorem storeOk_congr (jobId T : Nat) (l : List String) (s s2 : MemStorage)
    (c c2 : Nat) (h : StoreOk jobId T l s c)
    (he : s2.addressResults = s.addressResults) (hc : c ≤ c2) :
    StoreOk jobId T l s2 c2 := by
  obtain ⟨h1, h2, h3, h4, h5⟩ := h
  exact ⟨by rw [he]; exact h1, by rw [he]; exact h2, le_trans h3 hc,
    by rw [he]; exact h4, by rw [he]; exact h5⟩

theorem storeOk_tail (jobId T : Nat) (a : String) (l : List String)
    (s : MemStorage) (c : Nat) (h : StoreOk jobId T (a :: l) s c) :
    StoreOk jobId T l s c := by
  obtain ⟨h1, h2, h3, h4, h5⟩ := h
  refine ⟨h1, h2, h3, h4, ?_⟩
  intro a2
  have := h5 a2
  have hle : l.count a2 ≤ (a :: l).count a2 := by
    rw [List.count_cons]
    omega
  omega

/-- Under the invariant, the find of one iteration always succeeds and
always selects an untouched row of the requested address: untouched rows
carry creation timestamps below T, touched rows carry write timestamps
at or after T, and the listing is sorted ascending by timestamp, so the
first match is untouched whenever an untouched match exists - and the
count invariant guarantees one. -/
theorem storeOk_find (jobId T : Nat) (a : String) (rest : List String)
    (s : MemStorage) (c : Nat) (h : StoreOk jobId T (a :: rest) s c) :
    ∃ e, (MemStorage.getAddressResultsByBatchId s jobId).find?
        (fun r => r.address == a) = some e ∧
      e ∈ s.addressResults.map Prod.snd ∧ e.address = a ∧
      untouchedB T e = true ∧ e.data = none ∧ e.errorMessage = none := by
  obtain ⟨hkeys, hnod, hTc, hrows, hcount⟩ := h
  have hc1 : 1 ≤ (a :: rest).count a := by simp [List.count_cons]
  have hlen := hcount a
  have hpos : 0 < ((s.addressResults.map Prod.snd).filter
      (fun r => untouchedB T r && r.address == a)).length := by omega
  obtain ⟨x, hx⟩ := List.exists_mem_of_length_pos hpos
  have hx2 := List.mem_filter.mp hx
  have hxmem : x ∈ s.addressResults.map Prod.snd := hx2.1
  have hxunt : untouchedB T x = true := by
    have := hx2.2
    simp only [Bool.and_eq_true] at this
    exact this.1
  have hxaddr : x.address = a := by
    have := hx2.2
    simp only [Bool.and_eq_true, beq_iff_eq] at this
    exact this.2
  have hxsorted : x ∈ MemStorage.getAddressResultsByBatchId s jobId := by
    rw [MemStorage.getAddressResultsByBatchId, mem_sortByTime,
      List.mem_filter]
    exact ⟨hxmem, by simp [(hrows x hxmem).1]⟩
  have hsome : ((MemStorage.getAddressResultsByBatchId s jobId).find?
      (fun r => r.address == a)).isSome := by
    rw [List.find?_isSome]
    exact ⟨x, hxsorted, by simp [hxaddr]⟩
  obtain ⟨e, he⟩ := Option.isSome_iff_exists.mp hsome
  have hpred := List.find?_some he
  have hemem0 := List.mem_of_find?_eq_some he
  have hemem : e ∈ s.addressResults.map Prod.snd := by
    rw [MemStorage.getAddressResultsByBatchId, mem_sortByTime,
      List.mem_filter] at hemem0
    exact hemem0.1
  have headdr : e.address = a := by simpa using hpred
  have hemin := find_min_of_pairwise (fun r => r.address == a)
    (MemStorage.getAddressResultsByBatchId s jobId)
    (pairwise_sortByTime _) e he x hxsorted (by simp [hxaddr])
  have heunt : untouchedB T e = true := by
    have h1 := resultLe_le e x hemin
    have h2 : x.processedAt.getD 0 < T := by
      simpa [untouchedB] using hxunt
    simp only [untouchedB, decide_eq_true_eq]
    omega
  have heclean := (hrows e hemem).2.2 heunt
  exact ⟨e, he, hemem, headdr, heunt, heclean.1, heclean.2⟩

/-- Writing the processing status to an untouched row of the head
address preserves the invariant with one fewer pending iteration: the
written row leaves the untouched pool exactly as one occurrence of its
address leaves the remaining list. -/
theorem storeOk_write_untouched (jobId T : Nat) (a : String)
    (rest : List String) (s : MemStorage) (c : Nat)
    (h : StoreOk jobId T (a :: rest) s c)
    (e : AddressResult) (hmem : e ∈ s.addressResults.map Prod.snd)
    (haddr : e.address = a) (hunt : untouchedB T e = true)
    (hdata : e.data = none) (herr : e.errorMessage = none)
    (now : Nat) (hTnow : T ≤ now) (c2 : Nat) (hc2 : T ≤ c2) :
    StoreOk jobId T rest
      (MemStorage.updateAddressResult s e.id processingUpd now).2 c2 ∧
    getAssoc (MemStorage.updateAddressResult s e.id processingUpd
      now).2.addressResults e.id =
      some (applyResultUpdate e processingUpd now) := by
  obtain ⟨hkeys, hnod, hTc, hrows, hcount⟩ := h
  have hget : getAssoc s.addressResults e.id = some e :=
    getAssoc_of_mem_keyNodup s.addressResults hkeys hnod e hmem
  obtain ⟨A, B, hAB, hAB2, hkeys2, hfst2, _⟩ :=
    updateAddressResult_decomp s e.id now processingUpd e hget hkeys rfl
  set v := applyResultUpdate e processingUpd now with hv
  have hvfields : v.batchJobId = e.batchJobId ∧ v.address = e.address ∧
      v.data = none ∧ v.errorMessage = none ∧ v.processedAt = some now ∧
      v.status = "processing" := by
    refine ⟨?_, ?_, ?_, ?_, ?_, ?_⟩ <;>
      simp [hv, applyResultUpdate, processingUpd, hdata, herr]
  have hvunt : untouchedB T v = false := by
    simp only [untouchedB, hvfields.2.2.2.2.1, Option.getD_some,
      decide_eq_false_iff_not]
    omega
  constructor
  · refine ⟨hkeys2, by rw [hfst2]; exact hnod, hc2, ?_, ?_⟩
    · intro r hr
      rw [hAB2] at hr
      rcases List.mem_append.mp hr with h1 | h2
      · exact hrows r (by rw [hAB]; exact List.mem_append.mpr (Or.inl h1))
      · rcases List.mem_cons.mp h2 with hev | h3
        · subst hev
          have hegood := hrows e (by
            rw [hAB]
            exact List.mem_append.mpr (Or.inr (List.mem_cons_self _ _)))
          refine ⟨by rw [hvfields.1]; exact hegood.1, ?_, ?_⟩
          · exact Or.inl ⟨hvfields.2.2.1, hvfields.2.2.2.1,
              by rw [hvfields.2.2.2.2.2]; decide,
              by rw [hvfields.2.2.2.2.2]; decide⟩
          · intro hcon
            rw [hvunt] at hcon
            cases hcon
        · exact hrows r (by
            rw [hAB]
            exact List.mem_append.mpr (Or.inr (List.mem_cons_of_mem _ h3)))
    · intro a2
      have hc := hcount a2
      rw [hAB] at hc
      rw [hAB2]
      simp only [List.filter_append, List.filter_cons, List.length_append]
        at hc ⊢
      by_cases ha2 : a2 = a
      · have hpe : (untouchedB T e && e.address == a2) = true := by
          simp [hunt, haddr, ha2]
        have hpv : (untouchedB T v && v.address == a2) = false := by
          rw [hvunt, Bool.false_and]
        rw [hpe] at hc
        rw [hpv]
        simp only [List.count_cons, ha2, beq_self_eq_true,
          eq_self_iff_true, if_true, List.length_cons,
          if_neg Bool.false_ne_true] at hc ⊢
        omega
      · have haa2 : (a == a2) = false :=
          beq_eq_false_iff_ne.mpr fun hcon => ha2 hcon.symm
        have hpe : (untouchedB T e && e.address == a2) = false := by
          rw [haddr, haa2, Bool.and_false]
        have hpv : (untouchedB T v && v.address == a2) = false := by
          rw [hvunt, Bool.false_and]
        rw [hpe] at hc
        rw [hpv]
        have hcnt : List.count a2 (a :: rest) = List.count a2 rest := by
          simp only [List.count_cons]
          rw [haa2]
          simp
        rw [hcnt] at hc
        simp only [if_neg Bool.false_ne_true] at hc ⊢
        exact hc
  · have hnod2 : ((MemStorage.updateAddressResult s e.id processingUpd
        now).2.addressResults.map Prod.fst).Nodup := by
      rw [hfst2]; exact hnod
    have hvmem : v ∈ (MemStorage.updateAddressResult s e.id processingUpd
        now).2.addressResults.map Prod.snd := by
      rw [hAB2]
      exact List.mem_append.mpr (Or.inr (List.mem_cons_self _ _))
    have := getAssoc_of_mem_keyNodup _ hkeys2 hnod2 v hvmem
    have hvid : v.id = e.id := by simp [hv, applyResultUpdate, processingUpd]
    rw [hvid] at this
    exact this

/-- A second write to an already touched row (the terminal write of an
iteration lands on the processing row it just wrote) preserves the
invariant verbatim: the row was already outside the untouched pool and
stays outside it, so the count bookkeeping is unchanged, and the written
row is good by hypothesis. -/
theorem storeOk_write_touched (jobId T : Nat) (rem : List String)
    (s : MemStorage) (c : Nat) (h : StoreOk jobId T rem s c)
    (rid now : Nat) (u : ResultUpdate) (r0 : AddressResult)
    (hget : getAssoc s.addressResults rid = some r0)
    (hu : u.id = none) (hub : u.batchJobId = none)
    (hr0 : untouchedB T r0 = false)
    (hgood : goodRow (applyResultUpdate r0 u now))
    (hTnow : T ≤ now) (c2 : Nat) (hc2 : T ≤ c2) :
    StoreOk jobId T rem (MemStorage.updateAddressResult s rid u now).2 c2 := by
  obtain ⟨hkeys, hnod, hTc, hrows, hcount⟩ := h
  obtain ⟨A, B, hAB, hAB2, hkeys2, hfst2, _⟩ :=
    updateAddressResult_decomp s rid now u r0 hget hkeys hu
  set v := applyResultUpdate r0 u now with hv
  have hr0mem : r0 ∈ s.addressResults.map Prod.snd := by
    rw [hAB]
    exact List.mem_append.mpr (Or.inr (List.mem_cons_self _ _))
  have hvp : v.processedAt = some now := rfl
  have hvunt : untouchedB T v = false := by
    simp only [untouchedB, hvp, Option.getD_some, decide_eq_false_iff_not]
    omega
  have hvb : v.batchJobId = r0.batchJobId := by
    simp [hv, applyResultUpdate, hub]
  refine ⟨hkeys2, by rw [hfst2]; exact hnod, hc2, ?_, ?_⟩
  · intro r hr
    rw [hAB2] at hr
    rcases List.mem_append.mp hr with h1 | h2
    · exact hrows r (by rw [hAB]; exact List.mem_append.mpr (Or.inl h1))
    · rcases List.mem_cons.mp h2 with hev | h3
      · subst hev
        refine ⟨by rw [hvb]; exact (hrows r0 hr0mem).1, hgood, ?_⟩
        intro hcon
        rw [hvunt] at hcon
        cases hcon
      · exact hrows r (by
          rw [hAB]
          exact List.mem_append.mpr (Or.inr (List.mem_cons_of_mem _ h3)))
  · intro a2
    have hc := hcount a2
    rw [hAB] at hc
    rw [hAB2]
    simp only [List.filter_append, List.filter_cons, List.length_append]
      at hc ⊢
    have hpe : (untouchedB T r0 && r0.address == a2) = false := by
      rw [hr0, Bool.false_and]
    have hpv : (untouchedB T v && v.address == a2) = false := by
      rw [hvunt, Bool.false_and]
    rw [hpe] at hc
    rw [hpv]
    simp only [if_neg Bool.false_ne_true] at hc ⊢
    exact hc

/-- The inner try of one iteration preserves the invariant with the
head address consumed, on every path: a fault before any write leaves
the store at the tail invariant; the processing write consumes the
untouched head row; each terminal write (success, failure, or the
fault-message failure of the inner catch) lands on that now touched row
and produces a good row. -/
theorem processEntry_storeOk (jobId T : Nat) (attempt : Nat → AttemptResult)
    (f : AddrFaults) (d i : Nat) (a : String) (rest : List String)
    (st : RunState) (e : AddressResult)
    (h : StoreOk jobId T (a :: rest) st.store st.clock)
    (hmem : e ∈ st.store.addressResults.map Prod.snd)
    (haddr : e.address = a) (hunt : untouchedB T e = true)
    (hdata : e.data = none) (herr : e.errorMessage = none) :
    (∀ msg stE, processEntry attempt f d i e.id st = .error (msg, stE) →
      StoreOk jobId T rest stE.store stE.clock) ∧
    (∀ st2 flag, processEntry attempt f d i e.id st = .ok (st2, flag) →
      StoreOk jobId T rest st2.store st2.clock) := by
  have hTc : T ≤ st.clock := h.2.2.1
  unfold processEntry
  by_cases hpf : f.onProcessingWrite
  · simp only [hpf, if_true]
    refine ⟨?_, ?_⟩
    · intro msg stE he
      cases he
      exact storeOk_tail jobId T a rest st.store st.clock h
    · intro st2 flag he
      cases he
  · simp only [hpf, if_false]
    obtain ⟨hok1, hget1⟩ := storeOk_write_untouched jobId T a rest st.store
      st.clock h e hmem haddr hunt hdata herr st.clock hTc (st.clock + 1)
      (Nat.le_succ_of_le hTc)
    set v1 := applyResultUpdate e processingUpd st.clock with hv1
    have hv1p : v1.processedAt = some st.clock := rfl
    have hv1d : v1.data = none := by
      simp [hv1, applyResultUpdate, processingUpd, hdata]
    have hv1unt : untouchedB T v1 = false := by
      simp only [untouchedB, hv1p, Option.getD_some, decide_eq_false_iff_not]
      omega
    have hgoodF : ∀ m now2, goodRow (applyResultUpdate v1 (failedUpd m) now2) := by
      intro m now2
      refine Or.inr (Or.inr ⟨?_, ?_, ?_⟩) <;>
        simp [applyResultUpdate, failedUpd, hv1d]
    have hgoodS : ∀ b now2, goodRow (applyResultUpdate v1 (successUpd b) now2) := by
      intro b now2
      refine Or.inr (Or.inl ⟨?_, ?_, ?_⟩) <;>
        simp [applyResultUpdate, successUpd]
    have hterm : ∀ (u : ResultUpdate), u.id = none → u.batchJobId = none →
        goodRow (applyResultUpdate v1 u (st.clock + 1)) →
        StoreOk jobId T rest
          (MemStorage.updateAddressResult
            (MemStorage.updateAddressResult st.store e.id processingUpd
              st.clock).2 e.id u (st.clock + 1)).2 (st.clock + 2) :=
      fun u hu hub hg => storeOk_write_touched jobId T rest _ (st.clock + 1)
        hok1 e.id (st.clock + 1) u v1 hget1 hu hub hv1unt hg
        (by omega) (st.clock + 2) (by omega)
    rcases hlo : (balanceLookup attempt d).outcome with body | msg0
    · by_cases hsf : f.onSuccessWrite
      · by_cases hff : f.onFailureWrite
        · simp only [hlo, hsf, hff, if_true]
          refine ⟨?_, ?_⟩
          · intro msg stE he
            cases he
            exact hok1
          · intro st2 flag he
            cases he
        · simp only [hlo, hsf, hff, if_true, Bool.false_eq_true, if_false]
          refine ⟨?_, ?_⟩
          · intro msg stE he
            cases he
          · intro st2 flag he
            cases he
            exact hterm (failedUpd storeFaultMsg) rfl rfl
              (hgoodF storeFaultMsg (st.clock + 1))
      · simp only [hlo, hsf, Bool.false_eq_true, if_false]
        refine ⟨?_, ?_⟩
        · intro msg stE he
          cases he
        · intro st2 flag he
          cases he
          exact hterm (successUpd body) rfl rfl (hgoodS body (st.clock + 1))
    · by_cases hff : f.onFailureWrite
      · simp only [hlo, hff, if_true]
        refine ⟨?_, ?_⟩
        · intro msg stE he
          cases he
          exact hok1
        · intro st2 flag he
          cases he
      · simp only [hlo, hff, Bool.false_eq_true, if_false]
        refine ⟨?_, ?_⟩
        · intro msg stE he
          cases he
        · intro st2 flag he
          cases he
          exact hterm (failedUpd msg0) rfl rfl (hgoodF msg0 (st.clock + 1))

/-- One full iteration of the loop preserves the invariant, consuming
the head address: the counter persist touches only the job table and
the pace touches nothing. -/
theorem processOne_storeOk (jobId T n d : Nat)
    (oracle : Nat → Nat → AttemptResult) (faults : Nat → AddrFaults)
    (i : Nat) (a : String) (rest : List String) (st : RunState)
    (h : StoreOk jobId T (a :: rest) st.store st.clock) :
    StoreOk jobId T rest (processOne jobId n d oracle faults i a st).store
      (processOne jobId n d oracle faults i a st).clock := by
  obtain ⟨e, hfind, hmem, haddr, hunt, hdata, herr⟩ :=
    storeOk_find jobId T a rest st.store st.clock h
  have hpe := processEntry_storeOk jobId T (oracle i) (faults i) d i a rest
    st e h hmem haddr hunt hdata herr
  rcases hex : processEntry (oracle i) (faults i) d i e.id st with epair | p
  · obtain ⟨msg, stE⟩ := epair
    have hE := hpe.1 msg stE hex
    simp only [processOne, hfind, hex]
    exact hE
  · obtain ⟨st2, flag⟩ := p
    have hO := hpe.2 st2 flag hex
    simp only [processOne, hfind, hex]
    by_cases hlt : st2.processedCount + 1 < n
    · simp only [writeJob, hlt, if_true]
      exact storeOk_congr jobId T rest st2.store _ st2.clock (st2.clock + 1)
        hO (updateBatchJob_addressResults _ _ _) (Nat.le_succ _)
    · simp only [writeJob, hlt, if_false]
      exact storeOk_congr jobId T rest st2.store _ st2.clock (st2.clock + 1)
        hO (updateBatchJob_addressResults _ _ _) (Nat.le_succ _)

/-- The store as persisted between the processing write and the terminal
write of an iteration: every row is still well coupled, the freshly
written row being a clean processing row. -/
theorem storeOk_midStore (jobId T : Nat) (a : String) (rest : List String)
    (st : RunState) (h : StoreOk jobId T (a :: rest) st.store st.clock) :
    ∀ r ∈ (midIterationStore jobId a st).addressResults.map Prod.snd,
      resultFieldsOk r := by
  obtain ⟨e, hfind, hmem, haddr, hunt, hdata, herr⟩ :=
    storeOk_find jobId T a rest st.store st.clock h
  have hTc : T ≤ st.clock := h.2.2.1
  obtain ⟨hok1, _⟩ := storeOk_write_untouched jobId T a rest st.store
    st.clock h e hmem haddr hunt hdata herr st.clock hTc st.clock hTc
  intro r hr
  simp only [midIterationStore, hfind] at hr
  exact goodRow_resultFieldsOk r ((hok1.2.2.2.1 r hr).2.1)

theorem createPendingRows_clock (jobId : Nat) :
    ∀ (l : List String) (s : MemStorage) (c : Nat),
      (createPendingRows jobId l s c).2 = c + l.length := by
  intro l
  induction l with
  | nil => intro s c; rfl
  | cons a rest ih =>
      intro s c
      simp only [createPendingRows, ih, List.length_cons]
      omega

theorem buildPending_keys (jobId : Nat) :
    ∀ (l : List String) (c : Nat), ∀ p ∈ buildPending jobId c l, p.1 = p.2.id := by
  intro l
  induction l with
  | nil => intro c p hp; simp [buildPending] at hp
  | cons a rest ih =>
      intro c p hp
      simp only [buildPending, List.mem_cons] at hp
      rcases hp with he | hm
      · rw [he]; rfl
      · exact ih (c + 1) p hm

theorem buildPending_rows (jobId : Nat) :
    ∀ (l : List String) (c : Nat),
      ∀ r ∈ (buildPending jobId c l).map Prod.snd,
        r.batchJobId = jobId ∧ r.status = "pending" ∧ r.data = none ∧
        r.errorMessage = none := by
  intro l
  induction l with
  | nil => intro c r hr; simp [buildPending] at hr
  | cons a rest ih =>
      intro c r hr
      simp only [buildPending, List.map_cons, List.mem_cons] at hr
      rcases hr with he | hm
      · rw [he]; exact ⟨rfl, rfl, rfl, rfl⟩
      · exact ih (c + 1) r hm

/-- Creation rows all predate any threshold at or above the final
creation tick, so the untouched pool initially holds one row per input
occurrence of each address. -/
theorem buildPending_count (jobId : Nat) :
    ∀ (l : List String) (c T : Nat), c + l.length ≤ T → ∀ a : String,
      (((buildPending jobId c l).map Prod.snd).filter
        (fun r => untouchedB T r && r.address == a)).length = l.count a := by
  intro l
  induction l with
  | nil => intro c T hT a; rfl
  | cons a0 rest ih =>
      intro c T hT a
      have hunt : untouchedB T (pendingRow jobId a0 c) = true := by
        simp only [untouchedB, pendingRow, Option.getD_some, decide_eq_true_eq]
        simp only [List.length_cons] at hT
        omega
      have hrec := ih (c + 1) T
        (by simp only [List.length_cons] at hT; omega) a
      simp only [buildPending, List.map_cons, List.filter_cons, hunt,
        Bool.true_and, List.count_cons]
      have haddr : (pendingRow jobId a0 c).address = a0 := rfl
      rw [haddr]
      by_cases hcase : a0 = a
      · subst hcase
        simp only [beq_self_eq_true, eq_self_iff_true, if_true,
          List.length_cons, hrec]
      · have h1 : (a0 == a) = false := beq_eq_false_iff_ne.mpr hcase
        rw [h1]
        simp only [if_neg Bool.false_ne_true, hrec, Nat.add_zero]

/-- Right after initialization on a store with no result rows, the
invariant holds with the initialization-end tick as threshold and the
whole input list still remaining. -/
theorem startProcessing_storeOk (jobId : Nat) (addresses : List String)
    (s : MemStorage) (clock : Nat) (hempty : s.addressResults = []) :
    StoreOk jobId ((startProcessing jobId addresses s clock).2) addresses
      (startProcessing jobId addresses s clock).1
      ((startProcessing jobId addresses s clock).2) := by
  have hA : (startProcessing jobId addresses s clock).1.addressResults =
      buildPending jobId (clock + 1) addresses := by
    simp only [startProcessing]
    rw [createPendingRows_eq jobId addresses _ (clock + 1) ?_]
    · rw [updateBatchJob_addressResults, hempty]
      simp
    · intro p hp
      rw [updateBatchJob_addressResults, hempty] at hp
      simp at hp
  have hC : (startProcessing jobId addresses s clock).2 =
      clock + 1 + addresses.length := by
    simp only [startProcessing]
    exact createPendingRows_clock jobId addresses _ (clock + 1)
  refine ⟨?_, ?_, le_refl _, ?_, ?_⟩
  · rw [hA]
    exact buildPending_keys jobId addresses (clock + 1)
  · rw [hA, buildPending_fst jobId addresses (clock + 1)]
    exact List.nodup_range' _ _
  · intro r hr
    rw [hA] at hr
    obtain ⟨h1, h2, h3, h4⟩ := buildPending_rows jobId addresses (clock + 1) r hr
    exact ⟨h1, Or.inl ⟨h3, h4, by rw [h2]; decide, by rw [h2]; decide⟩,
      fun _ => ⟨h3, h4⟩⟩
  · intro a
    rw [hA, hC, buildPending_count jobId addresses (clock + 1)
      (clock + 1 + addresses.length) (le_refl _) a]

/-- The loop over a suffix of the iteration list consumes exactly that
suffix from the invariant, whatever the oracle and faults do. -/
theorem runLoop_storeOk (jobId T n d : Nat)
    (oracle : Nat → Nat → AttemptResult) (faults : Nat → AddrFaults) :
    ∀ (l1 l2 : List String) (i : Nat) (st : RunState),
      StoreOk jobId T (l1 ++ l2) st.store st.clock →
      StoreOk jobId T l2 ((runLoop jobId n d oracle faults i l1 st).store)
        ((runLoop jobId n d oracle faults i l1 st).clock) := by
  intro l1
  induction l1 with
  | nil =>
      intro l2 i st h
      simpa [runLoop] using h
  | cons a rest ih =>
      intro l2 i st h
      simp only [runLoop]
      exact ih l2 (i + 1) _
        (processOne_storeOk jobId T n d oracle faults i a (rest ++ l2) st h)

/-- C6: for every AddressResult at every persisted point of every run -
after initialization, between the processing write and the terminal
write of any iteration, after any number of completed iterations, and
after the completion persist - the response payload is present iff the
status is success and the error message is present iff the status is
failed; this holds for every address list (duplicates included), every
upstream behaviour and every injected result-store fault. The success
update stores the payload and clears the error message, as claimed. The
failure update stores the human-readable reason but, its update object
carrying no data field (routes.ts lines 290-293), leaves the payload
unchanged rather than clearing it; the row it lands on never holds a
payload, so the coupling is nevertheless preserved. -/
theorem c6_payload_iff_success_amended (jobId rateLimit : Nat)
    (addresses : List String) (oracle : Nat → Nat → AttemptResult)
    (faults : Nat → AddrFaults) (s : MemStorage) (clock : Nat)
    (st0 : RunState) (hempty : s.addressResults = [])
    (hst0 : st0 =
      { store := (startProcessing jobId addresses s clock).1
        clock := (startProcessing jobId addresses s clock).2
        processedCount := 0, successCount := 0, failedCount := 0,
        trace := [], outcomes := [] }) :
    (∀ r b now, (applyResultUpdate r (successUpd b) now).status = "success" ∧
      (applyResultUpdate r (successUpd b) now).data = some b ∧
      (applyResultUpdate r (successUpd b) now).errorMessage = none) ∧
    (∀ r m now, (applyResultUpdate r (failedUpd m) now).status = "failed" ∧
      (applyResultUpdate r (failedUpd m) now).errorMessage = some m ∧
      (applyResultUpdate r (failedUpd m) now).data = r.data) ∧
    (∀ k, ∀ r ∈ ((runLoop jobId addresses.length (requestDelayOf rateLimit)
        oracle faults 0 (addresses.take k) st0).store.addressResults.map
        Prod.snd), resultFieldsOk r) ∧
    (∀ k, k < addresses.length →
      ∀ r ∈ ((midIterationStore jobId (addresses.getD k "")
        (runLoop jobId addresses.length (requestDelayOf rateLimit) oracle
          faults 0 (addresses.take k) st0)).addressResults.map Prod.snd),
        resultFieldsOk r) ∧
    (∀ r ∈ ((processAddressesBatch jobId addresses rateLimit oracle faults
        st0).store.addressResults.map Prod.snd), resultFieldsOk r) := by
  have hT0 : StoreOk jobId (startProcessing jobId addresses s clock).2
      addresses st0.store st0.clock := by
    rw [hst0]
    exact startProcessing_storeOk jobId addresses s clock hempty
  have hpre : ∀ k, StoreOk jobId (startProcessing jobId addresses s clock).2
      (addresses.drop k)
      ((runLoop jobId addresses.length (requestDelayOf rateLimit) oracle
        faults 0 (addresses.take k) st0).store)
      ((runLoop jobId addresses.length (requestDelayOf rateLimit) oracle
        faults 0 (addresses.take k) st0).clock) := by
    intro k
    refine runLoop_storeOk jobId _ addresses.length (requestDelayOf rateLimit)
      oracle faults (addresses.take k) (addresses.drop k) 0 st0 ?_
    rw [List.take_append_drop]
    exact hT0
  refine ⟨?_, ?_, ?_, ?_, ?_⟩
  · intro r b now
    refine ⟨?_, ?_, ?_⟩ <;> simp [applyResultUpdate, successUpd]
  · intro r m now
    refine ⟨?_, ?_, ?_⟩ <;> simp [applyResultUpdate, failedUpd]
  · intro k r hr
    exact goodRow_resultFieldsOk r (((hpre k).2.2.2.1) r hr).2.1
  · intro k hk r hr
    have hdrop : addresses.drop k =
        addresses.getD k "" :: addresses.drop (k + 1) := by
      rw [List.getD_eq_getElem addresses "" hk]
      exact List.drop_eq_getElem_cons hk
    have hS := hpre k
    rw [hdrop] at hS
    exact storeOk_midStore jobId _ (addresses.getD k "")
      (addresses.drop (k + 1)) _ hS r hr
  · intro r hr
    have hS : StoreOk jobId (startProcessing jobId addresses s clock).2 []
        ((runLoop jobId addresses.length (requestDelayOf rateLimit) oracle
          faults 0 addresses st0).store)
        ((runLoop jobId addresses.length (requestDelayOf rateLimit) oracle
          faults 0 addresses st0).clock) := by
      refine runLoop_storeOk jobId _ addresses.length (requestDelayOf rateLimit)
        oracle faults addresses [] 0 st0 ?_
      rw [List.append_nil]
      exact hT0
    simp only [processAddressesBatch, writeJob] at hr
    rw [updateBatchJob_addressResults] at hr
    exact goodRow_resultFieldsOk r ((hS.2.2.2.1 r hr).2.1)

def c6WJob : BatchJob :=
  { id := 1, name := "w", targetTokenAddress := none, rateLimit := 5,
    status := "pending", totalAddresses := 0, processedAddresses := 0,
    successfulLookups := 0, failedLookups := 0, createdAt := some 0,
    completedAt := none }

def c6WStore : MemStorage := { batchJobs := [(1, c6WJob)], addressResults := [] }

/-- First occurrence of the duplicate address succeeds upstream, the
second fails with a 500. -/
def c6WOracle : Nat → Nat → AttemptResult := fun i _ =>
  if i = 0 then .httpResponse 200 "OK" 7
  else .httpResponse 500 "Internal Server Error" 0

/-- The success write of the first iteration throws, driving that
iteration through the inner catch onto the failure write. -/
def c6WFaults : Nat → AddrFaults := fun i =>
  if i = 0 then { onSuccessWrite := true } else {}

def c6WState : RunState :=
  { store := (startProcessing 1 ["p", "p"] c6WStore 0).1
    clock := (startProcessing 1 ["p", "p"] c6WStore 0).2
    processedCount := 0, successCount := 0, failedCount := 0,
    trace := [], outcomes := [] }

theorem c6_payload_iff_success_amended_witness :
    (∀ r ∈ ((runLoop 1 2 (requestDelayOf 5) c6WOracle c6WFaults 0
        (["p", "p"].take 1) c6WState).store.addressResults.map Prod.snd),
      resultFieldsOk r) ∧
    (∀ r ∈ ((midIterationStore 1 (["p", "p"].getD 1 "")
        (runLoop 1 2 (requestDelayOf 5) c6WOracle c6WFaults 0
          (["p", "p"].take 1) c6WState)).addressResults.map Prod.snd),
      resultFieldsOk r) ∧
    (∀ r ∈ ((processAddressesBatch 1 ["p", "p"] 5 c6WOracle c6WFaults
        c6WState).store.addressResults.map Prod.snd), resultFieldsOk r) :=
  ⟨(c6_payload_iff_success_amended 1 5 ["p", "p"] c6WOracle c6WFaults
      c6WStore 0 c6WState rfl rfl).2.2.1 1,
   (c6_payload_iff_success_amended 1 5 ["p", "p"] c6WOracle c6WFaults
      c6WStore 0 c6WState rfl rfl).2.2.2.1 1 (by decide),
   (c6_payload_iff_success_amended 1 5 ["p", "p"] c6WOracle c6WFaults
      c6WStore 0 c6WState rfl rfl).2.2.2.2⟩
